import Mathlib

/-!
# Verification development for the ELISA analysis engine

Shallow embedding of the quantification engine of the ELISA analysis
application (reader parsing, polynomial and 4PL curve fitting, standard-curve
Auto-QC, and sample quantification), together with theorems that settle the
frozen specification claims.

Modelling conventions:
* JavaScript `number` is modelled as an arbitrary linear ordered field `K`
  (instantiated at `ℚ` for concrete executions and at `ℝ` when transcendental
  functions matter).  In this idealisation every value of `K` is finite, so
  `Number.isFinite` is the constant `true` and the NaN-producing operations
  (`0/0`, `r2` with zero total variance, ...) are modelled with `Option K`
  (`none` = NaN / "no numeric value").
* The transcendental primitives used by the 4PL module (`Math.exp`,
  `Math.log`, `Math.log10`, `Math.sqrt`, JS `10 ** x`, and number→string
  display) are abstracted into the `JsMathOps` typeclass; at `ℝ` they are the
  genuine real functions.
* JavaScript arrays are Lean lists; the JS `Set` insertion-order semantics is
  modelled with duplicate-free lists built by `setAdd`; JS objects used as
  string-keyed maps are association lists.
-/

-- The core `Rat` arithmetic operations are `@[irreducible]` in this toolchain,
-- which blocks `decide`'s elaboration-time evaluation (the kernel itself checks
-- them fine).  Restore their natural reducibility for this file.
attribute [local semireducible] Rat.add Rat.sub Rat.mul Rat.inv

set_option maxRecDepth 8000

namespace Elisa

/-- In the idealised number model every value is finite
(`Number.isFinite(x)` for an actual number `x` of the model). -/
def jsIsFinite {K : Type} (_ : K) : Bool := true

/-- `Math.sign`. -/
def jsSign {K : Type} [LinearOrderedField K] (x : K) : K :=
  if x < 0 then -1 else if 0 < x then 1 else 0

/-- JS `Math.min(hi, Math.max(lo, v))` as used by the sources' `clamp`. -/
def clampK {K : Type} [LinearOrderedField K] (v lo hi : K) : K :=
  min hi (max lo v)

section Polynomial

variable {K : Type} [LinearOrderedField K]

/-- `polynomial.ts`: `evalPoly` — Horner evaluation, coefficients low-to-high. -/
def evalPoly (coeff : List K) (x : K) : K :=
  coeff.foldr (fun c y => y * x + c) 0

/-- `r2Score` from `polynomial.ts` / `logistic4pl.ts`: `1 - SSres/SStot`;
`none` models the NaN returned when `SStot = 0`.  (The source indexes
`yHat[i]` for `i < y.length`; all call sites pass equally long lists, which
the `zip` below reproduces.) -/
def r2Score (y yHat : List K) : Option K :=
  let m := y.sum / (y.length : K)
  let ssTot := (y.map (fun v => (v - m) * (v - m))).sum
  let ssRes := ((y.zip yHat).map (fun p => (p.1 - p.2) * (p.1 - p.2))).sum
  if ssTot = 0 then none else some (1 - ssRes / ssTot)

/-- Matrix entry `M[r][c]` (out-of-range reads return 0; the translated code
never reads out of range). -/
def mGet (M : List (List K)) (r c : ℕ) : K := (M.getD r []).getD c 0

/-- Partial pivoting of `solveLinearSystem`: starting from `pivotRow = col`,
scan rows `col+1 .. n-1` and keep the row with strictly larger `|M[r][col]|`. -/
def pivotRowFor (M : List (List K)) (col n : ℕ) : ℕ :=
  (List.range n).foldl
    (fun pr r => if col < r ∧ |mGet M pr col| < |mGet M r col| then r else pr) col

/-- Normalisation step: divide entries `c = col .. end` of the pivot row by the
pivot (entries before `col` are untouched, as in the source loop). -/
def scaleRowFrom (row : List K) (col : ℕ) (pivot : K) : List K :=
  row.mapIdx (fun c v => if col ≤ c then v / pivot else v)

/-- Elimination step for one non-pivot row: subtract `factor` times the pivot
row from entries `c = col ..`, skipping rows whose factor is below `1e-12`. -/
def elimRow (target pivotRowData : List K) (col : ℕ) : List K :=
  let factor := target.getD col 0
  if |factor| < 1 / 1000000000000 then target
  else target.mapIdx (fun c v => if col ≤ c then v - factor * (pivotRowData.getD c 0) else v)

/-- One column step of the Gauss–Jordan elimination in `solveLinearSystem`. -/
def gaussStep (n col : ℕ) (M : List (List K)) : Option (List (List K)) :=
  let pr := pivotRowFor M col n
  if |mGet M pr col| < 1 / 1000000000000 then none
  else
    let M1 := if pr = col then M
      else (M.set col (M.getD pr [])).set pr (M.getD col [])
    let pivot := mGet M1 col col
    let scaled := scaleRowFrom (M1.getD col []) col pivot
    let M2 := M1.set col scaled
    some (M2.mapIdx (fun r row => if r = col then row else elimRow row scaled col))

/-- The `for (col = 0; col < n; col++)` loop of `solveLinearSystem`,
with the early `return null` on a near-singular pivot. -/
def gaussAux (n : ℕ) : ℕ → List (List K) → Option (List (List K))
  | 0, M => some M
  | k + 1, M =>
    match gaussStep n (n - (k + 1)) M with
    | none => none
    | some M1 => gaussAux n k M1

/-- `solveLinearSystem(A, b)` (shared by `polynomial.ts` and
`logistic4pl.ts`): Gauss–Jordan with partial pivoting on the augmented matrix;
`none` when a pivot magnitude falls below `1e-12`.  (The source reads `b[i]`
for `i < A.length`; all call sites pass `b` of length `A.length`, which the
`zip` reproduces.) -/
def solveLinearSystem (A : List (List K)) (b : List K) : Option (List K) :=
  let n := A.length
  let M := (A.zip b).map (fun p => p.1 ++ [p.2])
  match gaussAux n n M with
  | none => none
  | some M1 => some (M1.map (fun row => row.getD n 0))

/-- `PolyFit` of `polynomial.ts`; `r2 : Option K` since `r2Score` can be NaN. -/
structure PolyFit (K : Type) where
  degree : ℕ
  coeff : List K
  r2 : Option K
  deriving Repr, DecidableEq

/-- `fitPolynomial(x, y, degree)`: normal-equations least squares over the
monomial basis.  The power sums `A[row][col] = Σ x^(row+col)` and
`b[row] = Σ y·x^row` are the same values the source accumulates with its
iterated `xpows` table (exact in a field). -/
def fitPolynomial (x y : List K) (degree : ℕ) : Option (PolyFit K) :=
  let clean := (x.zip y).filter (fun p => jsIsFinite p.1 && jsIsFinite p.2)
  if clean.length < degree + 1 then none
  else
    let n := degree + 1
    let A := (List.range n).map (fun row => (List.range n).map (fun col =>
      (clean.map (fun p => p.1 ^ (row + col))).sum))
    let b := (List.range n).map (fun row =>
      (clean.map (fun p => p.2 * p.1 ^ row)).sum)
    match solveLinearSystem A b with
    | none => none
    | some coeff =>
      let yHat := clean.map (fun p => evalPoly coeff p.1)
      some ⟨degree, coeff, r2Score (clean.map (fun p => p.2)) yHat⟩

/-- The `err` closure of `invertPolyBySearch`: squared deviation of
`evalPoly coeff x` from the target `y`. -/
def ipbErr (coeff : List K) (y x : K) : K :=
  (evalPoly coeff x - y) * (evalPoly coeff x - y)

/-- One iteration of the 600-step coarse scan of `invertPolyBySearch`
(loop variable `i + 1` for `i ∈ range 600`, state `(bestX, bestErr)`). -/
def ipbScanStep (coeff : List K) (y minX maxX : K) (st : K × K) (i : ℕ) : K × K :=
  let x0 := minX + (((i : K) + 1) / 600) * (maxX - minX)
  let e0 := ipbErr coeff y x0
  if e0 < st.2 then (x0, e0) else st

/-- The coarse scan (`steps = 600`), started at `(minX, err(minX))`. -/
def ipbScan (coeff : List K) (y minX maxX : K) : K × K :=
  (List.range 600).foldl (ipbScanStep coeff y minX maxX) (minX, ipbErr coeff y minX)

/-- One local-refinement iteration of `invertPolyBySearch`: probe the clamped
points `bestX ± step` in order, then halve the step (state
`(bestX, bestErr, step)`). -/
def ipbRefineStep (coeff : List K) (y minX maxX : K) (st : K × K × K) (_i : ℕ) :
    K × K × K :=
  let a := clampK (st.1 - st.2.2) minX maxX
  let b := clampK (st.1 + st.2.2) minX maxX
  let ea := ipbErr coeff y a
  let eb := ipbErr coeff y b
  let st1 := if ea < st.2.1 then (a, ea) else (st.1, st.2.1)
  let st2 := if eb < st1.2 then (b, eb) else st1
  (st2.1, st2.2, st.2.2 / 2)

/-- The 28 refinement iterations, started from the scan result with initial
step `(maxX - minX) / 20`. -/
def ipbRefine (coeff : List K) (y minX maxX : K) : K × K × K :=
  (List.range 28).foldl (ipbRefineStep coeff y minX maxX)
    ((ipbScan coeff y minX maxX).1, (ipbScan coeff y minX maxX).2, (maxX - minX) / 20)

/-- `invertPolyBySearch(coeff, y, minX, maxX)`: 600-step coarse scan followed
by 28 halving refinement steps; `none` exactly on the guard `maxX <= minX`
(the `Number.isFinite` guards are vacuous in the model). -/
def invertPolyBySearch (coeff : List K) (y minX maxX : K) : Option K :=
  if maxX ≤ minX then none else some (ipbRefine coeff y minX maxX).1

end Polynomial

/-- The transcendental / display primitives the 4PL module takes from the JS
runtime: `Math.exp`, `Math.log`, `Math.log10`, `Math.sqrt`, the JS
exponentiation `10 ** t`, and JS number→string display (used only inside
human-readable reason strings). -/
class JsMathOps (K : Type) where
  exp : K → K
  log : K → K
  log10 : K → K
  sqrt : K → K
  powTen : K → K
  toStr : K → String

section FourPL

variable {K : Type} [LinearOrderedField K] [JsMathOps K]

/-- `FourPLParams` of `logistic4pl.ts`:
`y = A + (D - A) / (1 + 10^((C - log10 x) * B))`. -/
structure FourPLParams (K : Type) where
  A : K
  D : K
  C : K
  B : K
  deriving Repr, DecidableEq

/-- `FourPLFit`; `r2 : Option K` models the possibly-NaN `r2Score`. -/
structure FourPLFit (K : Type) where
  params : FourPLParams K
  r2 : Option K
  sse : K
  n : ℕ
  deriving Repr, DecidableEq

/-- `eval4plLogX`: overflow-safe evaluation,
`10^t` computed as `exp(clamp(t, -60, 60) * ln 10)`. -/
def eval4plLogX (p : FourPLParams K) (xLog10 : K) : K :=
  let t := (p.C - xLog10) * p.B
  let pw := JsMathOps.exp (clampK t (-60) 60 * JsMathOps.log (10 : K))
  p.A + (p.D - p.A) / (1 + pw)

/-- `eval4pl`: clamps non-positive concentrations to `1e-12` before taking
`log10`. -/
def eval4pl (p : FourPLParams K) (xConc : K) : K :=
  eval4plLogX p (JsMathOps.log10 (if 0 < xConc then xConc else 1 / 1000000000000))

/-- `invert4pl(params, y, minConc, maxConc)`: closed-form inversion.  The
`Number.isFinite` guards are vacuous in the model; the remaining guards are
translated in source order. -/
def invert4pl (p : FourPLParams K) (y minConc maxConc : K) : Option K :=
  if p.B ≤ 0 then none
  else if maxConc ≤ minConc then none
  else
    let lo := min p.A p.D
    let hi := max p.A p.D
    if y ≤ lo ∨ hi ≤ y then none
    else
      let denom := y - p.A
      if |denom| < 1 / 1000000000000 then none
      else
        let frac := (p.D - p.A) / denom - 1
        if ¬ (0 < frac) then none
        else
          let xLog10 := p.C - JsMathOps.log10 frac / p.B
          let conc := JsMathOps.powTen xLog10
          if conc < minConc ∨ maxConc < conc then none else some conc

/-- `FitOptions` of `fit4pl`. -/
structure FitOptions (K : Type) where
  maxIter : Option ℕ := none
  lambda0 : Option K := none
  tol : Option K := none
  restarts : Option ℕ := none

/-- The model evaluated on the internal parameter vector `[A, D, C, b]`
(`B = exp(clamp(b, -4, 4))`). -/
def lmEvalModel (pp : List K) (xLog : K) : K :=
  eval4plLogX ⟨pp.getD 0 0, pp.getD 1 0, pp.getD 2 0,
    JsMathOps.exp (clampK (pp.getD 3 0) (-4) 4)⟩ xLog

/-- Sum of squared residuals for a parameter vector. -/
def lmSseFor (clean : List (K × K)) (pp : List K) : K :=
  (clean.map (fun pt => (pt.2 - lmEvalModel pp pt.1) * (pt.2 - lmEvalModel pp pt.1))).sum

/-- Central-difference numerical Jacobian with relative step
`1e-4 * (|p[j]| + 1)`. -/
def lmJacobian (clean : List (K × K)) (p : List K) : List (List K) :=
  clean.map (fun pt => (List.range 4).map (fun j =>
    let dp := (1 / 10000 : K) * (|p.getD j 0| + 1)
    let ppPlus := p.set j (p.getD j 0 + dp)
    let ppMinus := p.set j (p.getD j 0 - dp)
    (lmEvalModel ppPlus pt.1 - lmEvalModel ppMinus pt.1) / (2 * dp)))

/-- `J^T J` with Levenberg–Marquardt damping `lambda` on the diagonal. -/
def lmJTJ (J : List (List K)) (lambda : K) : List (List K) :=
  (List.range 4).map (fun j => (List.range 4).map (fun k =>
    (J.map (fun row => row.getD j 0 * row.getD k 0)).sum +
      if j = k then lambda else 0))

/-- `J^T r`. -/
def lmJTr (J : List (List K)) (r : List K) : List K :=
  (List.range 4).map (fun j => ((J.zip r).map (fun p => p.1.getD j 0 * p.2)).sum)

/-- The `for (iter …)` Levenberg–Marquardt loop of `fit4pl`, as a fuel
recursion on state `(p, lambda, curSse)`; the `break`s return the current
state. -/
def lmLoop (clean : List (K × K)) (minX maxX tol : K) :
    ℕ → List K × K × K → List K × K × K
  | 0, st => st
  | iter + 1, (p, lambda, curSse) =>
    let r := clean.map (fun pt => pt.2 - lmEvalModel p pt.1)
    let J := lmJacobian clean p
    match solveLinearSystem (lmJTJ J lambda) (lmJTr J r) with
    | none => (p, lambda, curSse)
    | some delta =>
      let pC0 := (List.range 4).map (fun j => p.getD j 0 + delta.getD j 0)
      let pC1 := pC0.set 2 (clampK (pC0.getD 2 0) (minX - 2) (maxX + 2))
      let pCand := pC1.set 3 (clampK (pC1.getD 3 0) (-4) 4)
      let sseCand := lmSseFor clean pCand
      if sseCand + 1 / 1000000000000 < curSse then
        let lambda1 := max (1 / 1000000000000) (lambda * (35 / 100))
        let stepNorm := JsMathOps.sqrt ((delta.map (fun v => v * v)).sum)
        if stepNorm < tol then (pCand, lambda1, sseCand)
        else lmLoop clean minX maxX tol iter (pCand, lambda1, sseCand)
      else lmLoop clean minX maxX tol iter (p, min 1000000000000 (lambda * 10), curSse)

/-- One restart of `fit4pl`: run the LM loop from the initial vector for the
given Hill-slope guess `BStart` and keep the lower-SSE fit. -/
def fit4plGuess (clean : List (K × K)) (minX maxX tol lambda0 : K) (maxIter : ℕ)
    (A0 D0 C0 : K) (bestFit : Option (FourPLFit K)) (BStart : K) :
    Option (FourPLFit K) :=
  let p0 := [A0, D0, C0, JsMathOps.log (max (1 / 1000) BStart)]
  let fin := lmLoop clean minX maxX tol maxIter (p0, lambda0, lmSseFor clean p0)
  let params : FourPLParams K :=
    ⟨fin.1.getD 0 0, fin.1.getD 1 0, fin.1.getD 2 0,
      JsMathOps.exp (clampK (fin.1.getD 3 0) (-4) 4)⟩
  let yHatFinal := clean.map (fun pt => eval4plLogX params pt.1)
  let fit : FourPLFit K :=
    ⟨params, r2Score (clean.map Prod.snd) yHatFinal, fin.2.2, clean.length⟩
  match bestFit with
  | none => some fit
  | some bf => if jsIsFinite fit.sse && fit.sse < bf.sse then some fit else some bf

/-- The initialisation and restart sweep of `fit4pl`, on the cleaned points
(reached only when `clean.length ≥ 4`).  The `bestMid = +Infinity` seed of
the `C0` search is modelled by the `Option K` component (`none` = not yet
set, every comparison against it succeeds). -/
def fit4plRestarts (clean : List (K × K)) (opts : FitOptions K) :
    Option (FourPLFit K) :=
  let maxIter := opts.maxIter.getD 90
  let tol := opts.tol.getD (1 / 10000000000)
  let lambda0 := opts.lambda0.getD (1 / 100)
  let restarts := opts.restarts.getD 3
  let xs := clean.map Prod.fst
  let ys := clean.map Prod.snd
  let minX := xs.foldl min (xs.headD 0)
  let maxX := xs.foldl max (xs.headD 0)
  let xMean := xs.sum / (xs.length : K)
  let yMean := ys.sum / (ys.length : K)
  let cov := (clean.map (fun pt => (pt.1 - xMean) * (pt.2 - yMean))).sum
  let varx := (xs.map (fun v => (v - xMean) * (v - xMean))).sum
  let slopeSign := if 0 < varx then jsSign (cov / varx) else 1
  let yMin := ys.foldl min (ys.headD 0)
  let yMax := ys.foldl max (ys.headD 0)
  let A0 := if 0 ≤ slopeSign then yMin else yMax
  let D0 := if 0 ≤ slopeSign then yMax else yMin
  let mid := (A0 + D0) / 2
  let C0 := (clean.foldl
    (fun (st : Option K × K) pt =>
      let d := |pt.2 - mid|
      match st.1 with
      | none => (some d, pt.1)
      | some b => if d < b then (some d, pt.1) else st)
    ((none : Option K), xs.getD (xs.length / 2) 0)).2
  let BGuesses := ([3 / 5, 1, 9 / 5, 3] : List K).take (max 1 restarts)
  BGuesses.foldl (fit4plGuess clean minX maxX tol lambda0 maxIter A0 D0 C0) none

/-- `fit4pl(xConc, y, opts)` of `logistic4pl.ts`: keeps points with `x > 0`
(finiteness is vacuous in the model), requires at least 4 of them, then runs
Levenberg–Marquardt from up to `max 1 restarts` Hill-slope guesses and keeps
the fit with the smallest SSE. -/
def fit4pl (xConc y : List K) (opts : FitOptions K) : Option (FourPLFit K) :=
  let clean := (xConc.zip y).filterMap (fun p =>
    if 0 < p.1 then some (JsMathOps.log10 p.1, p.2) else none)
  if clean.length < 4 then none else fit4plRestarts clean opts

end FourPL

/-- The real numbers carry the genuine JS math primitives (number→string
display is irrelevant to every claim and is stubbed to `""`). -/
noncomputable instance realJsMathOps : JsMathOps ℝ where
  exp := Real.exp
  log := Real.log
  log10 := fun x => Real.logb 10 x
  sqrt := Real.sqrt
  powTen := fun t => (10 : ℝ) ^ t
  toStr := fun _ => ""

/-- `ℚ` instance used to execute the polynomial-curve code paths on concrete
inputs.  The transcendental operations are never reached on those paths (the
`poly` branches of the engine do not call into the 4PL module), so arbitrary
stub values are adequate for them. -/
instance ratJsMathOps : JsMathOps ℚ where
  exp := fun _ => 0
  log := fun _ => 0
  log10 := fun _ => 0
  sqrt := fun _ => 0
  powTen := fun _ => 0
  toStr := fun q => toString q

section StringPrims

/-!  JS string primitives, implemented over `List Char` so that concrete
evaluation reduces predictably in the kernel.  They model the exact calls the
parser sources make (`split`, `trim`, `trimEnd`, `toUpperCase`,
`toLowerCase`, `replace(/\r/g,'')`, case-insensitive substring tests, and
regex-free reimplementations of the two fixed regular expressions). -/

/-- `text.replace(/\r/g, '')`. -/
def removeCR (s : String) : String := String.mk (s.data.filter (fun c => c ≠ '\r'))

/-- `s.trim()` (ASCII whitespace, adequate for the modelled inputs). -/
def sTrim (s : String) : String :=
  String.mk (((s.data.dropWhile Char.isWhitespace).reverse.dropWhile Char.isWhitespace).reverse)

/-- `s.trimEnd()`. -/
def sTrimEnd (s : String) : String :=
  String.mk ((s.data.reverse.dropWhile Char.isWhitespace).reverse)

/-- `s.toLowerCase()`. -/
def sToLower (s : String) : String := String.mk (s.data.map Char.toLower)

/-- `s.toUpperCase()`. -/
def sToUpper (s : String) : String := String.mk (s.data.map Char.toUpper)

/-- Split on a single separator character (JS `s.split(sep)`; always at least
one piece). -/
def charSplit (sep : Char) : List Char → List (List Char)
  | [] => [[]]
  | c :: cs =>
    let r := charSplit sep cs
    if c = sep then [] :: r else (c :: r.headD []) :: r.tail

/-- JS `s.split(sep)` wrapped back into strings. -/
def sSplitChar (sep : Char) (s : String) : List String :=
  (charSplit sep s.data).map String.mk

/-- Splitting on whitespace runs, fuelled by the list length (each step
consumes at least the head character, so the fuel is sufficient). -/
def splitWsGo : ℕ → List Char → List (List Char)
  | 0, _ => []
  | _ + 1, [] => []
  | fuel + 1, c :: cs =>
    if c.isWhitespace then splitWsGo fuel cs
    else (c :: cs.takeWhile (fun x => ¬ x.isWhitespace)) ::
      splitWsGo fuel (cs.dropWhile (fun x => ¬ x.isWhitespace))

/-- Splitting a trimmed, non-empty string on whitespace runs
(JS `s.trim().split(/\s+/)`). -/
def splitWsCore (l : List Char) : List (List Char) := splitWsGo l.length l

/-- JS `line.trim().split(/\s+/)` (on the empty string JS yields `[""]`). -/
def splitWs (line : String) : List String :=
  let t := sTrim line
  if t.data = [] then [""] else (splitWsCore t.data).map String.mk

/-- Number of occurrences of a character (`(head.match(/c/g) ?? []).length`). -/
def countChar (c : Char) (s : String) : ℕ := s.data.countP (fun x => x = c)

/-- `needle` starts `hay`. -/
def startsWithChars : List Char → List Char → Bool
  | [], _ => true
  | _ :: _, [] => false
  | a :: as, b :: bs => a = b && startsWithChars as bs

/-- `needle` occurs inside `hay` as a contiguous run. -/
def containsChars (needle : List Char) : List Char → Bool
  | [] => needle.isEmpty
  | b :: bs => startsWithChars needle (b :: bs) || containsChars needle bs

/-- Case-insensitive substring test (models the fixed regex
`/temperature/i.test(cell)` and JS `includes`). -/
def containsCI (hay pat : String) : Bool :=
  containsChars (sToLower pat).data (sToLower hay).data

/-- Case-sensitive substring test (JS `String.includes`). -/
def containsSub (hay pat : String) : Bool := containsChars pat.data hay.data

/-- `0, 1, ..., 9` digit run to a natural number. -/
def natOfDigits (ds : List Char) : ℕ :=
  ds.foldl (fun acc c => acc * 10 + (c.toNat - '0'.toNat)) 0

/-- JS `Number(s)` on a trimmed non-empty string, for finite decimal literals
(sign, digits, optional fraction, optional exponent): `none` models NaN and
the infinities.  (Exotic accepted forms such as hex literals do not occur in
the modelled reader inputs and also map to `none`.) -/
def jsParseNumber (cs : List Char) : Option ℚ :=
  let (sign, cs1) : ℚ × List Char :=
    match cs with
    | '+' :: rest => (1, rest)
    | '-' :: rest => (-1, rest)
    | _ => (1, cs)
  let d1 := cs1.takeWhile Char.isDigit
  let cs2 := cs1.dropWhile Char.isDigit
  let (d2, cs3) : List Char × List Char :=
    match cs2 with
    | '.' :: rest => (rest.takeWhile Char.isDigit, rest.dropWhile Char.isDigit)
    | _ => ([], cs2)
  if d1 = [] ∧ d2 = [] then none
  else
    let mant : ℚ := (sign * (natOfDigits (d1 ++ d2) : ℚ)) / (10 : ℚ) ^ d2.length
    match cs3 with
    | [] => some mant
    | e :: rest =>
      if e = 'e' ∨ e = 'E' then
        let (esign, rest1) : ℤ × List Char :=
          match rest with
          | '+' :: r => (1, r)
          | '-' :: r => (-1, r)
          | _ => (1, rest)
        let ed := rest1.takeWhile Char.isDigit
        if ed = [] ∨ rest1.dropWhile Char.isDigit ≠ [] then none
        else some (mant * (10 : ℚ) ^ (esign * (natOfDigits ed : ℤ)))
      else none

/-- JS `Number(s)` including the `Number('') = 0` quirk (input is trimmed at
every modelled call site). -/
def jsNumberRaw (s : String) : Option ℚ :=
  if s.data = [] then some 0 else jsParseNumber s.data

end StringPrims

section AutoQc

variable {K : Type} [LinearOrderedField K] [JsMathOps K]

/-- One replicate of `StdLevelInput` (`{ wellId, y }`). -/
structure Replicate (K : Type) where
  wellId : String
  y : K
  deriving Repr, DecidableEq

/-- `StdLevelInput` of `stdCurveAutoQc.ts`. -/
structure StdLevelInput (K : Type) where
  level : String
  conc : K
  replicates : List (Replicate K)
  deriving Repr, DecidableEq

/-- `CurveKind`: `{kind:'4pl'}` or `{kind:'poly', degree}`. -/
inductive CurveKind where
  | fourPL : CurveKind
  | poly (degree : ℕ) : CurveKind
  deriving Repr, DecidableEq

/-- `AutoQcAction`. -/
inductive AutoQcAction where
  | excludeReplicate (level wellId reason : String) : AutoQcAction
  | dropLevel (level reason : String) : AutoQcAction
  deriving Repr, DecidableEq

/-- `FitSummary` (`{r2, sse, nLevels}`); `r2 : Option K` models NaN. -/
structure FitSummary (K : Type) where
  r2 : Option K
  sse : K
  nLevels : ℕ
  deriving Repr, DecidableEq

/-- A point handed to the fitters (`{level, x, y, n}`). -/
structure QcPoint (K : Type) where
  level : String
  x : K
  y : K
  n : ℕ
  deriving Repr, DecidableEq

/-- `AutoQcOptions`; the caps are counts (`Option ℕ`), the penalties and the
improvement threshold are numbers. -/
structure AutoQcOptions (K : Type) where
  maxActions : Option ℕ := none
  maxExcludedWells : Option ℕ := none
  maxDroppedLevels : Option ℕ := none
  replicatePenalty : Option K := none
  levelPenalty : Option K := none
  minScoreImprove : Option K := none

/-- `AutoQcSuggestion`. -/
structure AutoQcSuggestion (K : Type) where
  excludedWellIds : List String
  droppedLevels : List String
  actions : List AutoQcAction
  baseline : Option (FitSummary K)
  suggested : Option (FitSummary K)
  deriving Repr, DecidableEq

/-- `mean` of `stdCurveAutoQc.ts`: `null` on an empty (finite-filtered)
list. -/
def qcMean (values : List K) : Option K :=
  let clean := values.filter (fun v => jsIsFinite v)
  if clean.length = 0 then none else some (clean.sum / (clean.length : K))

/-- `fitForPoints(points, curve)`: dispatch to `fit4pl` or `fitPolynomial`
and package a `FitSummary`.  For the polynomial branch the SSE is recomputed
from the returned coefficients exactly as in the source. -/
def fitForPoints (points : List (QcPoint K)) (curve : CurveKind) : Option (FitSummary K) :=
  match curve with
  | .fourPL =>
    let clean := points.filterMap (fun p =>
      if jsIsFinite p.x && decide (0 < p.x) && jsIsFinite p.y then some (p.x, p.y) else none)
    if clean.length < 4 then none
    else
      match fit4pl (clean.map Prod.fst) (clean.map Prod.snd) { restarts := some 3 } with
      | none => none
      | some fit => some ⟨fit.r2, fit.sse, clean.length⟩
  | .poly degree =>
    let clean := points.filterMap (fun p =>
      if jsIsFinite p.x && jsIsFinite p.y then some (p.x, p.y) else none)
    if clean.length < degree + 1 then none
    else
      match fitPolynomial (clean.map Prod.fst) (clean.map Prod.snd) degree with
      | none => none
      | some fit =>
        let sse := (clean.map (fun pt =>
          (pt.2 - evalPoly fit.coeff pt.1) * (pt.2 - evalPoly fit.coeff pt.1))).sum
        some ⟨fit.r2, sse, clean.length⟩

/-- `calcScore(fit, excludedCount, droppedCount, replicatePenalty,
levelPenalty)`.  A NaN `r2` maps to `-Infinity`, and `-Infinity` minus finite
penalties stays `-Infinity`: the result lives in `WithBot K` with `⊥` playing
`-Infinity`. -/
def calcScore (fit : FitSummary K) (excludedCount droppedCount : ℕ)
    (replicatePenalty levelPenalty : K) : WithBot K :=
  match fit.r2 with
  | none => ⊥
  | some r => ((r - (excludedCount : K) * replicatePenalty
      - (droppedCount : K) * levelPenalty : K) : WithBot K)

/-- Input normalisation of `suggestStandardCurveExclusions`: trim labels,
keep replicates with finite `y`, drop levels with empty labels, non-positive
concentration, or no replicates. -/
def normalizeLevels (inputs : List (StdLevelInput K)) : List (StdLevelInput K) :=
  ((inputs.map (fun l =>
      ({ level := sTrim l.level, conc := l.conc,
         replicates := l.replicates.filter (fun r => jsIsFinite r.y) } : StdLevelInput K)))
    |>.filter (fun l => decide (0 < l.level.length))
    |>.filter (fun l => jsIsFinite l.conc && decide (0 < l.conc))
    |>.filter (fun l => decide (0 < l.replicates.length)))

/-- JS `Set.add` on an insertion-ordered duplicate-free list. -/
def setAdd (l : List String) (x : String) : List String :=
  if x ∈ l then l else l ++ [x]

/-- The `buildPoints` closure: per non-dropped level, average the
non-excluded replicates; levels with no remaining replicate or a `null` mean
are skipped.  (The source repeats this loop verbatim inside both candidate
enumerations, with the tentative exclusion sets; here those call sites invoke
this single definition.) -/
def buildPoints (levels : List (StdLevelInput K)) (excluded dropped : List String) :
    List (QcPoint K) :=
  levels.filterMap (fun lvl =>
    if lvl.level ∈ dropped then none
    else
      let reps := lvl.replicates.filter (fun r => r.wellId ∉ excluded)
      if reps.length = 0 then none
      else
        match qcMean (reps.map (fun r => r.y)) with
        | none => none
        | some y => some ⟨lvl.level, lvl.conc, y, reps.length⟩)

/-- The searched-loop context: normalised levels, curve kind, caps and
penalties. -/
structure QcCtx (K : Type) where
  levels : List (StdLevelInput K)
  curve : CurveKind
  maxExcludedWells : ℕ
  maxDroppedLevels : ℕ
  replicatePenalty : K
  levelPenalty : K
  minScoreImprove : K

/-- The mutable loop state of `suggestStandardCurveExclusions`. -/
structure QcState (K : Type) where
  excluded : List String
  dropped : List String
  actions : List AutoQcAction
  curFit : FitSummary K
  curScore : WithBot K
  deriving Repr, DecidableEq

/-- A candidate step (`best` in the source). -/
structure QcCand (K : Type) where
  nextExcluded : List String
  nextDropped : List String
  fit : FitSummary K
  score : WithBot K
  action : AutoQcAction

/-- The reason template `Improves fit (ΔR² ….toFixed(4)).` (the numeric
display is the `JsMathOps.toStr` abstraction; claims never inspect it). -/
def mkReason (r2New r2Cur : Option K) : String :=
  "Improves fit (dR2 " ++
    (match r2New, r2Cur with
      | some a, some b => JsMathOps.toStr (a - b)
      | _, _ => "NaN") ++ ")."

/-- Candidate enumeration (a): exclude one replicate from a level that keeps
more than one included replicate, subject to the excluded-well cap. -/
def excludeCands (ctx : QcCtx K) (st : QcState K) (currentFit : FitSummary K) :
    List (QcCand K) :=
  ctx.levels.flatMap (fun lvl =>
    if lvl.level ∈ st.dropped then []
    else
      let included := lvl.replicates.filter (fun r => r.wellId ∉ st.excluded)
      if included.length ≤ 1 then []
      else
        included.filterMap (fun rep =>
          if rep.wellId ∈ st.excluded then none
          else if ctx.maxExcludedWells < st.excluded.length + 1 then none
          else
            let nextExcluded := setAdd st.excluded rep.wellId
            match fitForPoints (buildPoints ctx.levels nextExcluded st.dropped) ctx.curve with
            | none => none
            | some fit2 =>
              some ⟨nextExcluded, st.dropped, fit2,
                calcScore fit2 nextExcluded.length st.dropped.length
                  ctx.replicatePenalty ctx.levelPenalty,
                .excludeReplicate lvl.level rep.wellId
                  (mkReason (K := K) fit2.r2 currentFit.r2)⟩))

/-- Candidate enumeration (b): drop a whole level, subject to the
dropped-level cap. -/
def dropCands (ctx : QcCtx K) (st : QcState K) (currentFit : FitSummary K) :
    List (QcCand K) :=
  ctx.levels.filterMap (fun lvl =>
    if lvl.level ∈ st.dropped then none
    else if ctx.maxDroppedLevels < st.dropped.length + 1 then none
    else
      let nextDropped := setAdd st.dropped lvl.level
      match fitForPoints (buildPoints ctx.levels st.excluded nextDropped) ctx.curve with
      | none => none
      | some fit2 =>
        some ⟨st.excluded, nextDropped, fit2,
          calcScore fit2 st.excluded.length nextDropped.length
            ctx.replicatePenalty ctx.levelPenalty,
          .dropLevel lvl.level (mkReason (K := K) fit2.r2 currentFit.r2)⟩)

/-- `best` selection: a later candidate replaces the current best only with a
strictly larger score (`score2 > best.score`). -/
def pickBest (cands : List (QcCand K)) : Option (QcCand K) :=
  cands.foldl
    (fun b c =>
      match b with
      | none => some c
      | some b0 => if b0.score < c.score then some c else some b0)
    none

/-- One iteration of the greedy loop: recompute the current fit, enumerate
and select the best candidate, and accept it only when its score beats the
current score by more than `minScoreImprove`; `none` models every `break`. -/
def qcStep (ctx : QcCtx K) (st : QcState K) : Option (QcState K) :=
  match fitForPoints (buildPoints ctx.levels st.excluded st.dropped) ctx.curve with
  | none => none
  | some currentFit =>
    match pickBest (excludeCands ctx st currentFit ++ dropCands ctx st currentFit) with
    | none => none
    | some best =>
      if st.curScore + ((ctx.minScoreImprove : K) : WithBot K) < best.score then
        some ⟨best.nextExcluded, best.nextDropped, st.actions ++ [best.action],
          best.fit, best.score⟩
      else none

/-- The `for (step = 0; step < maxActions; step++)` loop. -/
def qcLoop (ctx : QcCtx K) : ℕ → QcState K → QcState K
  | 0, st => st
  | fuel + 1, st =>
    match qcStep ctx st with
    | none => st
    | some st1 => qcLoop ctx fuel st1

/-- Context assembly from the raw inputs and options (defaults as in the
source). -/
def mkQcCtx (inputs : List (StdLevelInput K)) (curve : CurveKind)
    (opts : AutoQcOptions K) : QcCtx K :=
  { levels := normalizeLevels inputs
    curve := curve
    maxExcludedWells := opts.maxExcludedWells.getD 3
    maxDroppedLevels := opts.maxDroppedLevels.getD 1
    replicatePenalty := opts.replicatePenalty.getD (1 / 200)
    levelPenalty := opts.levelPenalty.getD (1 / 100)
    minScoreImprove := opts.minScoreImprove.getD (1 / 1000) }

/-- The initial loop state (`some` exactly when the baseline fit exists). -/
def mkInitState (ctx : QcCtx K) : Option (QcState K) :=
  match fitForPoints (buildPoints ctx.levels [] []) ctx.curve with
  | none => none
  | some baselineFit =>
    some ⟨[], [], [], baselineFit,
      calcScore baselineFit 0 0 ctx.replicatePenalty ctx.levelPenalty⟩

/-- The loop invariant tying the running fit and score to the running
exclusion sets. -/
def QcStateOk (ctx : QcCtx K) (s : QcState K) : Prop :=
  fitForPoints (buildPoints ctx.levels s.excluded s.dropped) ctx.curve = some s.curFit ∧
  s.curScore = calcScore s.curFit s.excluded.length s.dropped.length
      ctx.replicatePenalty ctx.levelPenalty

/-- `suggestStandardCurveExclusions(inputs, curve, opts)` of
`stdCurveAutoQc.ts`. -/
def suggestStandardCurveExclusions (inputs : List (StdLevelInput K))
    (curve : CurveKind) (opts : AutoQcOptions K) : AutoQcSuggestion K :=
  let ctx := mkQcCtx inputs curve opts
  match mkInitState ctx with
  | none => ⟨[], [], [], none, none⟩
  | some s0 =>
    let sf := qcLoop ctx (opts.maxActions.getD 3) s0
    ⟨sf.excluded, sf.dropped, sf.actions, some s0.curFit,
      fitForPoints (buildPoints ctx.levels sf.excluded sf.dropped) ctx.curve⟩

end AutoQc


section Plate96

/-- `PLATE96_ROWS`. -/
def PLATE96_ROWS : List String := ["A", "B", "C", "D", "E", "F", "G", "H"]

/-- `plate96WellIds`: row-major `A1..H12`. -/
def plate96WellIds : List String :=
  PLATE96_ROWS.flatMap (fun r => (List.range 12).map (fun c => r ++ toString (c + 1)))

/-- Truncation toward zero of a rational (JS `Math.trunc`). -/
def ratTrunc (q : ℚ) : ℤ := q.num / (q.den : ℤ)

/-- `indexToWellId96(index)` of `plate96.ts`: truncate, bounds-check against
`0..95`, and index into `plate96WellIds`. -/
def indexToWellId96 (index : ℚ) : Option String :=
  let idx := ratTrunc index
  if idx < 0 ∨ 96 ≤ idx then none else plate96WellIds.get? idx.toNat

end Plate96

section Parser

/-- `ElisaWellReading`. -/
structure ElisaWellReading (K : Type) where
  a450 : Option K
  a570 : Option K
  net : Option K
  deriving Repr, DecidableEq

/-- The two reader formats. -/
inductive ElisaFormat where
  | plateBlocks : ElisaFormat
  | listFormat : ElisaFormat
  deriving Repr, DecidableEq

/-- `ElisaParseResult`; the `wells` object is an insertion-ordered
association list keyed by well id. -/
structure ElisaParseResult where
  wells : List (String × ElisaWellReading ℚ)
  temperatureC : Option ℚ
  warnings : List String
  format : ElisaFormat
  deriving Repr, DecidableEq

/-- The separator alternatives of `detectSep` / `detectSeparator`. -/
inductive Sep where
  | tab | comma | semicolon | pipe | whitespace
  deriving Repr, DecidableEq

/-- `toNumber(value)` of `elisaReader.ts`: trim; empty and the sentinel
tokens (`NA, NAN, INF, #DIV/0!, UNDETERMINED`, upper-cased comparison) parse
to `null`; otherwise `Number(s)` filtered through `Number.isFinite`. -/
def toNumber (value : String) : Option ℚ :=
  let s := sTrim value
  if s.data = [] then none
  else if ["NA", "NAN", "INF", "#DIV/0!", "UNDETERMINED"].contains (sToUpper s) then none
  else jsParseNumber s.data

/-- `splitPreserve(line, sep)` / `splitRow(line, sep)` (identical bodies in
`elisaReader.ts` and `tableText.ts`). -/
def splitPreserve (line : String) (sep : Sep) : List String :=
  match sep with
  | .tab => (sSplitChar '\t' line).map sTrim
  | .comma => (sSplitChar ',' line).map sTrim
  | .semicolon => (sSplitChar ';' line).map sTrim
  | .pipe => (sSplitChar '|' line).map sTrim
  | .whitespace => (splitWs line).map sTrim

/-- `detectSep(text)` / `detectSeparator(text)` (identical bodies): count
tab/comma/semicolon/pipe over the first 5 lines; the highest count wins with
ties resolved in that fixed order (JS stable sort); fall back to whitespace
when the best count is zero.  (Call sites pass CR-free text, so splitting on
`'\n'` matches the source's `/\r?\n/`.) -/
def detectSep (text : String) : Sep :=
  let head := String.intercalate "\n" ((sSplitChar '\n' text).take 5)
  let ct := countChar '\t' head
  let cc := countChar ',' head
  let cs := countChar ';' head
  let cp := countChar '|' head
  let b1 : Sep × ℕ := (.tab, ct)
  let b2 : Sep × ℕ := if b1.2 < cc then (.comma, cc) else b1
  let b3 : Sep × ℕ := if b2.2 < cs then (.semicolon, cs) else b2
  let b4 : Sep × ℕ := if b3.2 < cp then (.pipe, cp) else b3
  if 0 < b4.2 then b4.1 else .whitespace

/-- The per-row body of the data-collection loop of `tryParsePlateBlocks`
(rows are padded, both 12-wide blocks are read with `toNumber`, all-null rows
are skipped, the temperature cell is retried while still `null`, and the loop
breaks after 8 collected rows). -/
def collectRows (start450 start570 : ℕ) :
    List (List String) → List (List (Option ℚ)) → List (List (Option ℚ)) → Option ℚ →
    List (List (Option ℚ)) × List (List (Option ℚ)) × Option ℚ
  | [], m450, m570, temp => (m450, m570, temp)
  | row :: rest, m450, m570, temp =>
    let padded := if row.length < start570 + 12
      then row ++ List.replicate (start570 + 12 - row.length) "" else row
    let vals450 := (List.range 12).map (fun i => toNumber (padded.getD (start450 + i) ""))
    let vals570 := (List.range 12).map (fun i => toNumber (padded.getD (start570 + i) ""))
    if ¬ (vals450.any Option.isSome ∨ vals570.any Option.isSome) then
      collectRows start450 start570 rest m450 m570 temp
    else
      let temp1 := match temp with
        | some t => some t
        | none => toNumber (padded.getD 0 "")
      let m450' := m450 ++ [vals450]
      let m570' := m570 ++ [vals570]
      if 8 ≤ m450'.length then (m450', m570', temp1)
      else collectRows start450 start570 rest m450' m570' temp1

/-- The final well-map construction of `tryParsePlateBlocks`: one entry per
`indexToWellId96(r*12+c)` (all 96 of them), with `net = a450 - a570` exactly
when both readings parsed. -/
def buildWells (m450 m570 : List (List (Option ℚ))) : List (String × ElisaWellReading ℚ) :=
  (List.range 8).flatMap (fun r => (List.range 12).filterMap (fun c =>
    match indexToWellId96 ((r * 12 + c : ℕ) : ℚ) with
    | none => none
    | some w =>
      let a := (m450.getD r []).getD c none
      let b := (m570.getD r []).getD c none
      some (w, ⟨a, b,
        match a, b with
        | some x, some y => some (x - y)
        | _, _ => none⟩)))

/-- `tryParsePlateBlocks(text)` of `elisaReader.ts`. -/
def tryParsePlateBlocks (text : String) : Option ElisaParseResult :=
  let trimmed := sTrim (removeCR text)
  if trimmed.data = [] then none
  else
    let sep := detectSep trimmed
    let lines := ((sSplitChar '\n' trimmed).map sTrimEnd).filter
      (fun l => (sTrim l).data ≠ [])
    let rows := lines.map (fun l => splitPreserve l sep)
    let headerIdx := rows.findIdx? (fun r => r.any (fun c => containsCI c "temperature"))
    let resolvedHeaderIdx := match headerIdx with
      | some i => some i
      | none => rows.findIdx? (fun (r : List String) =>
          decide (2 ≤ (r.filter (fun c => sTrim c = "1")).length))
    match resolvedHeaderIdx with
    | none => none
    | some hIdx =>
      let header := rows.getD hIdx []
      let oneIndices := header.enum.filterMap
        (fun (p : ℕ × String) => if sTrim p.2 = "1" then some p.1 else none)
      if oneIndices.length < 2 then none
      else
        let start450 := oneIndices.getD 0 0
        let start570 := oneIndices.getD 1 0
        let dataRows := rows.drop (hIdx + 1)
        let collected := collectRows start450 start570 dataRows [] [] none
        if collected.1.length < 8 ∨ collected.2.1.length < 8 then none
        else some ⟨buildWells collected.1 collected.2.1, collected.2.2, [], .plateBlocks⟩

/-- `TableText` of `tableText.ts`. -/
structure TableText where
  headers : List String
  rows : List (List String)
  maxColumns : ℕ
  warnings : List String
  separator : Sep

/-- `parseTableText(text, {hasHeader})` of `tableText.ts`. -/
def parseTableText (text : String) (hasHeader : Bool) : TableText :=
  let trimmed := sTrim (removeCR text)
  if trimmed.data = [] then ⟨[], [], 0, [], .whitespace⟩
  else
    let separator := detectSep trimmed
    let rawLines := ((sSplitChar '\n' trimmed).map sTrimEnd).filter
      (fun l => (sTrim l).data ≠ [])
    let rawRows := rawLines.map (fun l => splitPreserve l separator)
    let maxColumns := rawRows.foldl (fun m r => max m r.length) 0
    let normalized := rawRows.map (fun row =>
      if row.length = maxColumns then row
      else row ++ List.replicate (maxColumns - row.length) "")
    let warnings := if normalized.length ≠ 0 ∧ normalized.any (fun r => r.length ≠ maxColumns)
      then ["Some rows have fewer columns than others; missing cells were padded with blanks."]
      else []
    let headers := if hasHeader
      then (normalized.headD []).mapIdx (fun idx h =>
        if (sTrim h).data ≠ [] then sTrim h else "Column " ++ toString (idx + 1))
      else (List.range maxColumns).map (fun idx => "Column " ++ toString (idx + 1))
    let rows := if hasHeader then normalized.tail else normalized
    ⟨headers, rows, maxColumns, warnings, separator⟩

/-- The well-id pattern `^([A-H])\s*([1-9]|1[0-2])$` (case-insensitive),
yielding the normalised id `${row.toUpperCase()}${Number(col)}`. -/
def wellMatch (raw : String) : Option String :=
  match raw.data with
  | [] => none
  | r :: rest =>
    let ru := r.toUpper
    if ru ∈ (['A', 'B', 'C', 'D', 'E', 'F', 'G', 'H'] : List Char) then
      match rest.dropWhile Char.isWhitespace with
      | [d] => if '1' ≤ d ∧ d ≤ '9'
          then some (String.mk [ru] ++ toString (d.toNat - '0'.toNat)) else none
      | [d1, d2] => if d1 = '1' ∧ '0' ≤ d2 ∧ d2 ≤ '2'
          then some (String.mk [ru] ++ toString (10 + (d2.toNat - '0'.toNat))) else none
      | _ => none
    else none

/-- JS object write `wells[wellId] = reading` on the association-list
model (overwrite in place, else append). -/
def jsObjectSet (l : List (String × ElisaWellReading ℚ)) (k : String)
    (v : ElisaWellReading ℚ) : List (String × ElisaWellReading ℚ) :=
  if l.any (fun p => p.1 = k) then l.map (fun p => if p.1 = k then (k, v) else p)
  else l ++ [(k, v)]

/-- `tryParseList(text)` of `elisaReader.ts`. -/
def tryParseList (text : String) : Option ElisaParseResult :=
  let trimmed := sTrim (removeCR text)
  if trimmed.data = [] then none
  else
    let table := parseTableText trimmed true
    if table.headers.length < 2 then none
    else
      let h := table.headers.map (fun v => sToLower (sTrim v))
      match h.findIdx? (fun c => containsSub c "450"),
            h.findIdx? (fun c => containsSub c "570") with
      | some i450, some i570 =>
        let idxWell := h.findIdx? (fun c => containsSub c "well" || containsSub c "position")
        let wells := table.rows.foldl
          (fun acc row =>
            let a450 := toNumber (row.getD i450 "")
            let a570 := toNumber (row.getD i570 "")
            let net := match a450, a570 with
              | some a, some b => some (a - b)
              | _, _ => none
            let wellId : Option String := match idxWell with
              | some iw => wellMatch (sTrim (row.getD iw ""))
              | none =>
                match jsNumberRaw (sTrim (row.getD 0 "")) with
                | none => none
                | some n => if 1 ≤ n ∧ n ≤ 96 then indexToWellId96 (n - 1) else none
            match wellId with
            | none => acc
            | some w => jsObjectSet acc w ⟨a450, a570, net⟩)
          []
        let warnings := if wells.length = 0
          then ["No well readings could be mapped from the list format."] else []
        some ⟨wells, none, warnings, .listFormat⟩
      | _, _ => none

/-- The parse-failure warning of `parseElisaReaderText`. -/
def couldNotParseMsg : String :=
  "Could not parse the reader output. Try pasting the 450/570 plate blocks as tab-separated text."

/-- `parseElisaReaderText(text)`: plate blocks first, then the list format,
otherwise an empty map with the fixed warning. -/
def parseElisaReaderText (text : String) : ElisaParseResult :=
  match tryParsePlateBlocks text with
  | some block => block
  | none =>
    match tryParseList text with
    | some l => l
    | none => ⟨[], none, [couldNotParseMsg], .plateBlocks⟩

end Parser

section Quant

variable {K : Type} [LinearOrderedField K] [JsMathOps K]

/-- `WellAssignment.type`. -/
inductive WellType where
  | empty | sample | standard | blank
  deriving Repr, DecidableEq

/-- The `WellAssignment` fields `sampleQuant` reads. -/
structure WellAssign (K : Type) where
  type : WellType
  animalId : Option String := none
  group : Option String := none
  standardLevel : Option String := none
  dilutionFactor : Option K := none
  keep : Bool := true
  deriving Repr, DecidableEq

/-- A `stdFitPoints` entry of `AnalysisTab` (`{level, conc, n, mean}`). -/
structure StdFitPoint (K : Type) where
  level : String
  conc : K
  n : ℕ
  mean : K
  deriving Repr, DecidableEq

/-- The `CurveFit` union of `AnalysisTab`. -/
inductive CurveFitT (K : Type) where
  | poly (fit : PolyFit K) : CurveFitT K
  | fourPL (fit : FourPLFit K) : CurveFitT K
  deriving Repr

/-- One `sampleQuant` output row. -/
structure QuantRow (K : Type) where
  wellId : String
  animalId : String
  group : String
  dilutionFactor : K
  netBlank : Option K
  conc : Option K
  concAdjusted : Option K
  deriving Repr, DecidableEq

/-- A generic well reading (the parser produces the `ℚ` instance). -/
structure WellReadingK (K : Type) where
  a450 : Option K := none
  a570 : Option K := none
  net : Option K := none
  deriving Repr, DecidableEq

/-- `sampleQuant` of `AnalysisTab.tsx`: for each kept Sample well with a
(finite) net reading, blank-correct, invert the fitted curve inside the
positive standard-concentration range, and scale by the dilution factor
(which defaults to 1 when unset or non-positive; JS `w.dilutionFactor &&
isFinite && > 0` treats 0 as falsy, matching `0 < d`). -/
def sampleQuant (curveFit : Option (CurveFitT K)) (stdFitPoints : List (StdFitPoint K))
    (wells : String → WellAssign K) (parsedWells : List (String × WellReadingK K))
    (blankOffset : K) : List (QuantRow K) :=
  match curveFit with
  | none => []
  | some cf =>
    let xVals := (stdFitPoints.map (fun p => p.conc)).filter
      (fun v => jsIsFinite v && decide (0 < v))
    if xVals.length = 0 then []
    else
      let minX := xVals.foldl min (xVals.headD 0)
      let maxX := xVals.foldl max (xVals.headD 0)
      plate96WellIds.filterMap (fun wellId =>
        let w := wells wellId
        if w.type ≠ .sample ∨ w.keep = false then none
        else
          match (parsedWells.lookup wellId).bind (fun rd => rd.net) with
          | none => none
          | some net =>
            let netBlank := net - blankOffset
            let conc := match cf with
              | .poly fit => invertPolyBySearch fit.coeff netBlank minX maxX
              | .fourPL fit => invert4pl fit.params netBlank minX maxX
            let dilution := match w.dilutionFactor with
              | some d => if jsIsFinite d && decide (0 < d) then d else 1
              | none => 1
            some ⟨wellId, w.animalId.getD "", w.group.getD "", dilution,
              some netBlank, conc, conc.map (fun c => c * dilution)⟩)

end Quant

section ConcreteData

/-! Concrete inputs used by the claim counterexamples and witnesses. -/

/-- Four standard levels whose means lie exactly on `y = x²` except that the
top level carries the replicate pair `{15, 17}` (mean 16, on the parabola). -/
def inputsC1 : List (StdLevelInput ℚ) :=
  [⟨"L1", 1, [⟨"w1", 1⟩]⟩, ⟨"L2", 2, [⟨"w2", 4⟩]⟩, ⟨"L3", 3, [⟨"w3", 9⟩]⟩,
   ⟨"L4", 4, [⟨"w4a", 15⟩, ⟨"w4b", 17⟩]⟩]

/-- Options with a negative replicate penalty (every field is an ordinary
number in the source API). -/
def optsC1 : AutoQcOptions ℚ :=
  { maxActions := some 1, replicatePenalty := some (-10) }

/-- Levels on `y = x²` with one level whose two replicates share the well id
`"X"`. -/
def inputsC6 : List (StdLevelInput ℚ) :=
  [⟨"L1", 1, [⟨"a", 1⟩]⟩, ⟨"L2", 2, [⟨"b", 4⟩]⟩, ⟨"L3", 3, [⟨"c", 9⟩]⟩,
   ⟨"L4", 4, [⟨"X", -50⟩, ⟨"X", 50⟩]⟩]

/-- Clean single-replicate data exactly on `y = x²`. -/
def inputsW1 : List (StdLevelInput ℚ) :=
  [⟨"L1", 1, [⟨"w1", 1⟩]⟩, ⟨"L2", 2, [⟨"w2", 4⟩]⟩, ⟨"L3", 3, [⟨"w3", 9⟩]⟩,
   ⟨"L4", 4, [⟨"w4", 16⟩]⟩]

/-- Distinct-well variant of `inputsC6` (for the distinctness witness). -/
def inputsW6 : List (StdLevelInput ℚ) :=
  [⟨"L1", 1, [⟨"a", 1⟩]⟩, ⟨"L2", 2, [⟨"b", 4⟩]⟩, ⟨"L3", 3, [⟨"c", 9⟩]⟩,
   ⟨"L4", 4, [⟨"d", 15⟩, ⟨"e", 17⟩]⟩]

/-- A minimal plate-block reader text: a header row whose two `1` cells mark
the 450/570 block starts, followed by 8 data rows. -/
def plateT0 : String :=
  "h\t1\t1\n\t5\t3\n\t5\t3\n\t5\t3\n\t5\t3\n\t5\t3\n\t5\t3\n\t5\t3\n\t5\t3"

/-- Well assignments for the quantification witness: `A1` is a kept sample
with dilution factor 2, everything else empty. -/
def wellsW8 : String → WellAssign ℚ := fun w =>
  if w = "A1" then ⟨.sample, some "m1", some "g1", none, some 2, true⟩
  else ⟨.empty, none, none, none, none, true⟩

/-- Readings for the quantification witness. -/
def parsedW8 : List (String × WellReadingK ℚ) :=
  [("A1", ⟨some 1, some (1/2), some (1/2)⟩)]

/-- A single usable standard point (so the inversion range is degenerate). -/
def stdPtsW8 : List (StdFitPoint ℚ) := [⟨"S1", 1, 2, 1⟩]

/-- The fitted curve for the quantification witness. -/
def cfW8 : Option (CurveFitT ℚ) := some (.poly ⟨1, [0, 1], some 1⟩)

/-- The initial Auto-QC state for `inputsW1` (the clean-data witness). -/
def s0W1 : QcState ℚ :=
  ⟨[], [], [], ⟨some 1, 0, 4⟩, ((1 : ℚ) : WithBot ℚ)⟩

/-- Proof infrastructure: the coarse scan restricted to the index window
`[s, s+n)` (`ipbScan` is the window `[0, 600)`); lets concrete scans be
evaluated in pieces. -/
def ipbScanChunk {K : Type} [LinearOrderedField K] (coeff : List K) (y minX maxX : K)
    (s n : ℕ) (st : K × K) : K × K :=
  (List.range' s n).foldl (ipbScanStep coeff y minX maxX) st

end ConcreteData

/-! ## Helper lemmas -/

section IpbLemmas

variable {K : Type} [LinearOrderedField K]

/-- The scan is the full index window. -/
theorem ipbScan_eq_chunk (coeff : List K) (y minX maxX : K) :
    ipbScan coeff y minX maxX =
      ipbScanChunk coeff y minX maxX 0 600 (minX, ipbErr coeff y minX) := by
  unfold ipbScan ipbScanChunk
  rw [List.range_eq_range']

/-- Chunked evaluation of the scan window. -/
theorem ipbScanChunk_split (coeff : List K) (y minX maxX : K) (s m n : ℕ) (st : K × K) :
    ipbScanChunk coeff y minX maxX s (n + m) st =
      ipbScanChunk coeff y minX maxX (s + m) n (ipbScanChunk coeff y minX maxX s m st) := by
  unfold ipbScanChunk
  rw [← List.range'_append s m n 1, List.foldl_append, one_mul]

/-- A state with zero best error is a fixed point of the scan step (squared
errors are nonnegative, and the update needs a strict decrease). -/
theorem ipbScanStep_zero (coeff : List K) (y minX maxX x : K) (i : ℕ) :
    ipbScanStep coeff y minX maxX (x, 0) i = (x, 0) := by
  unfold ipbScanStep
  have h : ¬ (ipbErr coeff y (minX + (((i : K) + 1) / 600) * (maxX - minX)) < 0) :=
    not_lt.mpr (mul_self_nonneg _)
  simp [h]

/-- Zero-error states persist through any scan window. -/
theorem ipbScanChunk_zero (coeff : List K) (y minX maxX x : K) (s n : ℕ) :
    ipbScanChunk coeff y minX maxX s n (x, 0) = (x, 0) := by
  unfold ipbScanChunk
  induction n generalizing s with
  | zero => rfl
  | succ n ih =>
    rw [List.range'_succ, List.foldl_cons, ipbScanStep_zero]
    exact ih (s + 1)

/-- Zero-error states pin the refinement's best point (both probes have
nonnegative error, so neither strict improvement fires). -/
theorem ipbRefineStep_zero (coeff : List K) (y minX maxX x stp : K) (i : ℕ) :
    ipbRefineStep coeff y minX maxX (x, 0, stp) i = (x, 0, stp / 2) := by
  unfold ipbRefineStep
  have ha : ¬ (ipbErr coeff y (clampK (x - stp) minX maxX) < 0) :=
    not_lt.mpr (mul_self_nonneg _)
  have hb : ¬ (ipbErr coeff y (clampK (x + stp) minX maxX) < 0) :=
    not_lt.mpr (mul_self_nonneg _)
  simp [ha, hb]

/-- Refinement from a zero-error scan result returns that scan point. -/
theorem ipbRefine_fold_zero (coeff : List K) (y minX maxX : K) :
    ∀ (l : List ℕ) (x stp : K),
      (l.foldl (ipbRefineStep coeff y minX maxX) (x, 0, stp)).1 = x := by
  intro l
  induction l with
  | nil => intro x stp; rfl
  | cons i t ih =>
    intro x stp
    rw [List.foldl_cons, ipbRefineStep_zero]
    exact ih x (stp / 2)

/-- `invertPolyBySearch` returns the scan point whenever the scan already
attains error zero and the range is non-degenerate. -/
theorem invertPolyBySearch_of_scan_zero (coeff : List K) (y minX maxX x : K)
    (hr : ¬ (maxX ≤ minX)) (hscan : ipbScan coeff y minX maxX = (x, 0)) :
    invertPolyBySearch coeff y minX maxX = some x := by
  rw [invertPolyBySearch, if_neg hr, ipbRefine, hscan]
  exact congrArg some (ipbRefine_fold_zero coeff y minX maxX _ x _)

/-- Scan steps with in-window indices keep the best point inside
`[minX, maxX]`. -/
theorem ipbScanStep_range (coeff : List K) (y minX maxX : K) (hle : minX ≤ maxX)
    (st : K × K) (i : ℕ) (hi : i < 600)
    (h1 : minX ≤ st.1) (h2 : st.1 ≤ maxX) :
    minX ≤ (ipbScanStep coeff y minX maxX st i).1 ∧
      (ipbScanStep coeff y minX maxX st i).1 ≤ maxX := by
  unfold ipbScanStep
  dsimp only
  split
  · constructor
    · have hnum : (0 : K) ≤ ((i : K) + 1) / 600 := by positivity
      nlinarith
    · have hnum : ((i : K) + 1) / 600 ≤ 1 := by
        rw [div_le_one (by norm_num : (0 : K) < 600)]
        have : (i : K) + 1 ≤ (600 : ℕ) := by
          exact_mod_cast Nat.succ_le_of_lt hi
        simpa using this
      nlinarith
  · exact ⟨h1, h2⟩

/-- The scan keeps the best point inside `[minX, maxX]`. -/
theorem ipbScan_fold_range (coeff : List K) (y minX maxX : K) (hle : minX ≤ maxX) :
    ∀ (l : List ℕ), (∀ i ∈ l, i < 600) → ∀ (st : K × K),
      minX ≤ st.1 → st.1 ≤ maxX →
      minX ≤ (l.foldl (ipbScanStep coeff y minX maxX) st).1 ∧
        (l.foldl (ipbScanStep coeff y minX maxX) st).1 ≤ maxX := by
  intro l
  induction l with
  | nil => exact fun _ st h1 h2 => ⟨h1, h2⟩
  | cons i t ih =>
    intro hmem st h1 h2
    rw [List.foldl_cons]
    have hstep := ipbScanStep_range coeff y minX maxX hle st i
      (hmem i (List.mem_cons_self i t)) h1 h2
    exact ih (fun j hj => hmem j (List.mem_cons_of_mem i hj)) _ hstep.1 hstep.2

/-- `clampK` lands inside `[lo, hi]` when `lo ≤ hi`. -/
theorem clampK_mem (v lo hi : K) (h : lo ≤ hi) :
    lo ≤ clampK v lo hi ∧ clampK v lo hi ≤ hi := by
  unfold clampK
  constructor
  · exact le_min h (le_max_left lo v)
  · exact min_le_left hi _

/-- Refinement steps keep the best point inside `[minX, maxX]`. -/
theorem ipbRefineStep_range (coeff : List K) (y minX maxX : K) (hle : minX ≤ maxX)
    (st : K × K × K) (i : ℕ) (h1 : minX ≤ st.1) (h2 : st.1 ≤ maxX) :
    minX ≤ (ipbRefineStep coeff y minX maxX st i).1 ∧
      (ipbRefineStep coeff y minX maxX st i).1 ≤ maxX := by
  unfold ipbRefineStep
  have ha := clampK_mem (st.1 - st.2.2) minX maxX hle
  have hb := clampK_mem (st.1 + st.2.2) minX maxX hle
  dsimp only
  split <;> split <;> simp_all

/-- The whole refinement keeps the best point inside `[minX, maxX]`. -/
theorem ipbRefine_fold_range (coeff : List K) (y minX maxX : K) (hle : minX ≤ maxX) :
    ∀ (l : List ℕ) (st : K × K × K),
      minX ≤ st.1 → st.1 ≤ maxX →
      minX ≤ (l.foldl (ipbRefineStep coeff y minX maxX) st).1 ∧
        (l.foldl (ipbRefineStep coeff y minX maxX) st).1 ≤ maxX := by
  intro l
  induction l with
  | nil => exact fun st h1 h2 => ⟨h1, h2⟩
  | cons i t ih =>
    intro st h1 h2
    rw [List.foldl_cons]
    have hstep := ipbRefineStep_range coeff y minX maxX hle st i h1 h2
    exact ih _ hstep.1 hstep.2

/-- Scan steps never increase the best error. -/
theorem ipbScanStep_mono {K : Type} [LinearOrderedField K] (coeff : List K)
    (y minX maxX : K) (st : K × K) (i : ℕ) :
    (ipbScanStep coeff y minX maxX st i).2 ≤ st.2 := by
  unfold ipbScanStep
  dsimp only
  split
  · exact le_of_lt (by assumption)
  · exact le_rfl

/-- The scan never increases the best error. -/
theorem ipbScan_fold_mono {K : Type} [LinearOrderedField K] (coeff : List K)
    (y minX maxX : K) :
    ∀ (l : List ℕ) (st : K × K),
      (l.foldl (ipbScanStep coeff y minX maxX) st).2 ≤ st.2 := by
  intro l
  induction l with
  | nil => exact fun st => le_rfl
  | cons i t ih =>
    intro st
    exact le_trans (ih _) (ipbScanStep_mono coeff y minX maxX st i)

/-- After the scan has visited index `i`, the best error is at most the error
of the `i`-th grid point. -/
theorem ipbScan_fold_le_err {K : Type} [LinearOrderedField K] (coeff : List K)
    (y minX maxX : K) :
    ∀ (l : List ℕ) (st : K × K), ∀ i ∈ l,
      (l.foldl (ipbScanStep coeff y minX maxX) st).2 ≤
        ipbErr coeff y (minX + (((i : K) + 1) / 600) * (maxX - minX)) := by
  intro l
  induction l with
  | nil => intro st i hi; simp at hi
  | cons j t ih =>
    intro st i hi
    rw [List.foldl_cons]
    rcases List.mem_cons.mp hi with rfl | hit
    · refine le_trans (ipbScan_fold_mono coeff y minX maxX t _) ?_
      unfold ipbScanStep
      dsimp only
      split
      · exact le_rfl
      · exact le_of_not_lt (by assumption)
    · exact ih _ i hit

/-- The scan's best error is always the error at its best point. -/
theorem ipbScan_fold_err_inv {K : Type} [LinearOrderedField K] (coeff : List K)
    (y minX maxX : K) :
    ∀ (l : List ℕ) (st : K × K), st.2 = ipbErr coeff y st.1 →
      (l.foldl (ipbScanStep coeff y minX maxX) st).2 =
        ipbErr coeff y (l.foldl (ipbScanStep coeff y minX maxX) st).1 := by
  intro l
  induction l with
  | nil => exact fun st h => h
  | cons i t ih =>
    intro st h
    rw [List.foldl_cons]
    refine ih _ ?_
    unfold ipbScanStep
    dsimp only
    split
    · rfl
    · exact h

/-- Refinement steps never increase the best error. -/
theorem ipbRefineStep_mono {K : Type} [LinearOrderedField K] (coeff : List K)
    (y minX maxX : K) (st : K × K × K) (i : ℕ) :
    (ipbRefineStep coeff y minX maxX st i).2.1 ≤ st.2.1 := by
  unfold ipbRefineStep
  dsimp only
  split <;> split <;> simp_all <;> linarith

/-- The refinement never increases the best error. -/
theorem ipbRefine_fold_mono {K : Type} [LinearOrderedField K] (coeff : List K)
    (y minX maxX : K) :
    ∀ (l : List ℕ) (st : K × K × K),
      (l.foldl (ipbRefineStep coeff y minX maxX) st).2.1 ≤ st.2.1 := by
  intro l
  induction l with
  | nil => exact fun st => le_rfl
  | cons i t ih =>
    intro st
    exact le_trans (ih _) (ipbRefineStep_mono coeff y minX maxX st i)

/-- The refinement's best error is always the error at its best point. -/
theorem ipbRefine_fold_err_inv {K : Type} [LinearOrderedField K] (coeff : List K)
    (y minX maxX : K) :
    ∀ (l : List ℕ) (st : K × K × K), st.2.1 = ipbErr coeff y st.1 →
      (l.foldl (ipbRefineStep coeff y minX maxX) st).2.1 =
        ipbErr coeff y (l.foldl (ipbRefineStep coeff y minX maxX) st).1 := by
  intro l
  induction l with
  | nil => exact fun st h => h
  | cons i t ih =>
    intro st h
    rw [List.foldl_cons]
    refine ih _ ?_
    unfold ipbRefineStep
    dsimp only
    split <;> split <;> simp_all

/-- The returned point's error is at most the error of any of the 601 scan
grid points `minX + (k/600)·(maxX - minX)`, `k = 0 .. 600`. -/
theorem ipbRefine_err_le_grid {K : Type} [LinearOrderedField K] (coeff : List K)
    (y minX maxX : K) (k : ℕ) (hk : k ≤ 600) :
    ipbErr coeff y (ipbRefine coeff y minX maxX).1 ≤
      ipbErr coeff y (minX + ((k : K) / 600) * (maxX - minX)) := by
  have hscan_inv : (ipbScan coeff y minX maxX).2 =
      ipbErr coeff y (ipbScan coeff y minX maxX).1 := by
    rw [ipbScan]
    exact ipbScan_fold_err_inv coeff y minX maxX _ _ rfl
  have href_inv : (ipbRefine coeff y minX maxX).2.1 =
      ipbErr coeff y (ipbRefine coeff y minX maxX).1 := by
    rw [ipbRefine]
    exact ipbRefine_fold_err_inv coeff y minX maxX _ _ hscan_inv
  have href_mono : (ipbRefine coeff y minX maxX).2.1 ≤ (ipbScan coeff y minX maxX).2 := by
    rw [ipbRefine]
    exact ipbRefine_fold_mono coeff y minX maxX _ _
  rw [← href_inv]
  rcases k with _ | i
  · have hgrid : minX + (((0 : ℕ) : K) / 600) * (maxX - minX) = minX := by
      push_cast
      ring
    rw [hgrid]
    refine le_trans href_mono ?_
    calc (ipbScan coeff y minX maxX).2
        ≤ (minX, ipbErr coeff y minX).2 := by
          rw [ipbScan]; exact ipbScan_fold_mono coeff y minX maxX _ _
      _ = ipbErr coeff y minX := rfl
  · have hi : i ∈ List.range 600 := List.mem_range.mpr (by omega)
    refine le_trans href_mono ?_
    have := ipbScan_fold_le_err coeff y minX maxX (List.range 600)
      (minX, ipbErr coeff y minX) i hi
    rw [ipbScan]
    convert this using 3
    push_cast
    ring

end IpbLemmas

/-- Keyed lookup succeeds for every key of the association list. -/
theorem lookup_isSome_of_mem_keys {α β : Type} [BEq α] [LawfulBEq α]
    (l : List (α × β)) (a : α) (h : a ∈ l.map Prod.fst) : ∃ b, l.lookup a = some b := by
  induction l with
  | nil => simp at h
  | cons p t ih =>
    by_cases hp : a = p.1
    · exact ⟨p.2, by simp [List.lookup, hp]⟩
    · have ht : a ∈ t.map Prod.fst := by
        simp only [List.map_cons, List.mem_cons] at h
        tauto
      obtain ⟨b, hb⟩ := ih ht
      exact ⟨b, by simp [List.lookup, hb, hp, beq_false_of_ne hp]⟩

/-- A successful lookup exhibits a member of the association list. -/
theorem mem_of_lookup_eq_some {α β : Type} [BEq α] [LawfulBEq α]
    {l : List (α × β)} {a : α} {b : β} (h : l.lookup a = some b) : (a, b) ∈ l := by
  induction l with
  | nil => simp [List.lookup] at h
  | cons p t ih =>
    rw [List.lookup] at h
    by_cases hp : a = p.1
    · simp only [hp, beq_self_eq_true] at h
      cases h
      simp [hp]
    · simp only [beq_false_of_ne hp] at h
      exact List.mem_cons_of_mem _ (ih h)

/-- The key list of `buildWells` is the full 96-well plate, for any
matrices. -/
theorem buildWells_keys (m a : List (List (Option ℚ))) :
    (buildWells m a).map Prod.fst = plate96WellIds := by rfl

/-- Every reading constructed by `buildWells` has
`net = a450 - a570` exactly when both components parsed. -/
theorem buildWells_net (m a : List (List (Option ℚ))) :
    ∀ p ∈ buildWells m a, p.2.net =
      (match p.2.a450, p.2.a570 with
       | some x, some y => some (x - y)
       | _, _ => none) := by
  intro p hp
  simp only [buildWells, List.mem_flatMap, List.mem_filterMap] at hp
  obtain ⟨r, _, c, _, hc⟩ := hp
  rcases hw : indexToWellId96 ((r * 12 + c : ℕ) : ℚ) with _ | w
  · rw [hw] at hc; cases hc
  · rw [hw] at hc
    cases hc
    rfl

/-- A successful plate-block parse is exactly the `buildWells` package (no
warnings, `plateBlocks` format). -/
theorem tryParsePlateBlocks_shape (t : String) (res : ElisaParseResult)
    (h : tryParsePlateBlocks t = some res) :
    ∃ m450 m570 temp, res = ⟨buildWells m450 m570, temp, [], .plateBlocks⟩ := by
  simp only [tryParsePlateBlocks] at h
  split at h
  · cases h
  · split at h
    · cases h
    · split at h
      · cases h
      · split at h
        · cases h
        · exact ⟨_, _, _, (Option.some_injective _ h).symm⟩

section ConcreteScans

/-!  Concrete scan evaluations, in 100-iteration pieces (the states were
computed from the embedding itself and are re-checked here by `decide`). -/

theorem scanCxA :
    ipbScanChunk [0, 0, (1 : ℚ)] (1/4) (-1) 1 0 100 (-1, ipbErr [0, 0, 1] (1/4) (-1)) =
      (-2/3, 49/1296) := by decide

theorem scanCxB :
    ipbScanChunk [0, 0, (1 : ℚ)] (1/4) (-1) 1 100 100 (-2/3, 49/1296) = (-1/2, 0) := by
  decide

/-- The coarse scan on `y = x²` over `[-1, 1]` with target `1/4` lands on the
grid point `-1/2` (the left of the two exact preimages) with error zero. -/
theorem scanCx : ipbScan [0, 0, (1 : ℚ)] (1/4) (-1) 1 = (-1/2, 0) := by
  rw [ipbScan_eq_chunk, show (600 : ℕ) = 500 + 100 from rfl, ipbScanChunk_split, scanCxA]
  simp only [Nat.reduceAdd]
  rw [show (500 : ℕ) = 400 + 100 from rfl, ipbScanChunk_split, scanCxB]
  simp only [Nat.reduceAdd]
  exact ipbScanChunk_zero _ _ _ _ _ _ _

theorem scanW4A :
    ipbScanChunk [0, (1 : ℚ)] (1/2) 0 1 0 100 (0, ipbErr [0, 1] (1/2) 0) = (1/6, 1/9) := by
  decide

theorem scanW4B :
    ipbScanChunk [0, (1 : ℚ)] (1/2) 0 1 100 100 (1/6, 1/9) = (1/3, 1/36) := by decide

theorem scanW4C :
    ipbScanChunk [0, (1 : ℚ)] (1/2) 0 1 200 100 (1/3, 1/36) = (1/2, 0) := by decide

/-- The scan for the identity polynomial with target `1/2` on `[0, 1]`. -/
theorem scanW4 : ipbScan [0, (1 : ℚ)] (1/2) 0 1 = (1/2, 0) := by
  rw [ipbScan_eq_chunk, show (600 : ℕ) = 500 + 100 from rfl, ipbScanChunk_split, scanW4A]
  simp only [Nat.reduceAdd]
  rw [show (500 : ℕ) = 400 + 100 from rfl, ipbScanChunk_split, scanW4B]
  simp only [Nat.reduceAdd]
  rw [show (400 : ℕ) = 300 + 100 from rfl, ipbScanChunk_split, scanW4C]
  simp only [Nat.reduceAdd]
  exact ipbScanChunk_zero _ _ _ _ _ _ _

theorem scanW2A :
    ipbScanChunk [1, (2 : ℚ)] (3/2) 0 1 0 100 (0, ipbErr [1, 2] (3/2) 0) = (1/6, 1/36) := by
  decide

theorem scanW2B :
    ipbScanChunk [1, (2 : ℚ)] (3/2) 0 1 100 100 (1/6, 1/36) = (1/4, 0) := by decide

/-- The scan for `y = 1 + 2x` with target `3/2` on `[0, 1]`. -/
theorem scanW2 : ipbScan [1, (2 : ℚ)] (3/2) 0 1 = (1/4, 0) := by
  rw [ipbScan_eq_chunk, show (600 : ℕ) = 500 + 100 from rfl, ipbScanChunk_split, scanW2A]
  simp only [Nat.reduceAdd]
  rw [show (500 : ℕ) = 400 + 100 from rfl, ipbScanChunk_split, scanW2B]
  simp only [Nat.reduceAdd]
  exact ipbScanChunk_zero _ _ _ _ _ _ _

end ConcreteScans

section Fit4plLemmas

/-- A fold whose step always produces `some` ends in `some` once it starts
from `some` or processes at least one element. -/
theorem foldl_isSome_of_step {α β : Type} (g : Option β → α → Option β)
    (hstep : ∀ acc a, (g acc a).isSome) :
    ∀ (l : List α) (acc : Option β), acc.isSome = true ∨ l ≠ [] →
      (l.foldl g acc).isSome = true := by
  intro l
  induction l with
  | nil =>
    intro acc h
    rcases h with h | h
    · exact h
    · exact absurd rfl h
  | cons a t ih =>
    intro acc _
    rw [List.foldl_cons]
    exact ih _ (Or.inl (hstep acc a))

/-- The cleaned point list of `fit4pl` has exactly one entry per index pair
with positive concentration. -/
theorem fit4pl_clean_length {K : Type} [LinearOrderedField K] [JsMathOps K]
    (l : List (K × K)) :
    (l.filterMap (fun p =>
      if 0 < p.1 then some (JsMathOps.log10 p.1, p.2) else none)).length
      = (l.filter (fun p => decide (0 < p.1))).length := by
  induction l with
  | nil => rfl
  | cons a t ih =>
    by_cases h : 0 < a.1 <;> simp [List.filterMap_cons, h, ih]

/-- Each restart produces a fit (`some`), whatever the incumbent is. -/
theorem fit4plGuess_isSome {K : Type} [LinearOrderedField K] [JsMathOps K]
    (clean : List (K × K)) (minX maxX tol lambda0 : K) (maxIter : ℕ)
    (A0 D0 C0 : K) (acc : Option (FourPLFit K)) (B : K) :
    (fit4plGuess clean minX maxX tol lambda0 maxIter A0 D0 C0 acc B).isSome = true := by
  unfold fit4plGuess
  rcases acc with _ | bf
  · rfl
  · dsimp only
    split <;> rfl

/-- The restart sweep always returns a fit. -/
theorem fit4plRestarts_isSome {K : Type} [LinearOrderedField K] [JsMathOps K]
    (clean : List (K × K)) (opts : FitOptions K) :
    (fit4plRestarts clean opts).isSome = true := by
  unfold fit4plRestarts
  dsimp only
  refine foldl_isSome_of_step _ (fun acc a => fit4plGuess_isSome _ _ _ _ _ _ _ _ _ acc a)
    _ none (Or.inr ?_)
  intro hnil
  have hlen := congrArg List.length hnil
  rw [List.length_take] at hlen
  simp at hlen

end Fit4plLemmas

section RealLemmas

/-- The real instance's primitives, unfolded. -/
theorem realExp_eq : (JsMathOps.exp : ℝ → ℝ) = Real.exp := rfl

theorem realLog_eq : (JsMathOps.log : ℝ → ℝ) = Real.log := rfl

theorem realLog10_eq : (JsMathOps.log10 : ℝ → ℝ) = fun x => Real.logb 10 x := rfl

theorem realPowTen_eq : (JsMathOps.powTen : ℝ → ℝ) = fun t => (10 : ℝ) ^ t := rfl

/-- Closed form of `eval4pl` over `ℝ` when the exponent avoids the `±60`
clamp: the overflow-safe `exp(clamp(t)·ln 10)` is exactly `10^t`. -/
theorem eval4pl_formula (p : FourPLParams ℝ) (x : ℝ) (hx : 0 < x)
    (ht : |(p.C - Real.logb 10 x) * p.B| ≤ 60) :
    eval4pl p x =
      p.A + (p.D - p.A) / (1 + (10 : ℝ) ^ ((p.C - Real.logb 10 x) * p.B)) := by
  unfold eval4pl eval4plLogX
  rw [realLog10_eq, realExp_eq, realLog_eq]
  dsimp only
  rw [if_pos hx]
  obtain ⟨hta, htb⟩ := abs_le.mp ht
  rw [show clampK ((p.C - Real.logb 10 x) * p.B) (-60) 60
      = (p.C - Real.logb 10 x) * p.B from by
    unfold clampK
    rw [max_eq_right hta, min_eq_right htb]]
  rw [Real.rpow_def_of_pos (by norm_num : (0 : ℝ) < 10), mul_comm]

end RealLemmas

section AutoQcLemmas

theorem setAdd_length_le (l : List String) (x : String) :
    (setAdd l x).length ≤ l.length + 1 := by
  unfold setAdd
  split
  · exact Nat.le_succ _
  · simp

theorem mem_setAdd (l : List String) (x y : String) :
    y ∈ setAdd l x ↔ y ∈ l ∨ y = x := by
  unfold setAdd
  split
  · rename_i h
    constructor
    · exact Or.inl
    · rintro (h1 | rfl)
      · exact h1
      · exact h
  · simp

theorem pick_fold_mem {K : Type} [LinearOrderedField K] (l : List (QcCand K)) :
    ∀ (acc : Option (QcCand K)) (c : QcCand K),
      l.foldl
        (fun b c =>
          match b with
          | none => some c
          | some b0 => if b0.score < c.score then some c else some b0) acc = some c →
      acc = some c ∨ c ∈ l := by
  induction l with
  | nil => intro acc c h; exact Or.inl h
  | cons a t ih =>
    intro acc c h
    simp only [List.foldl_cons] at h
    rcases ih _ c h with h1 | h1
    · cases acc with
      | none =>
        have h2 : some a = some c := h1
        cases h2
        exact Or.inr (List.mem_cons_self a t)
      | some b0 =>
        have h2 : (if b0.score < a.score then some a else some b0) = some c := h1
        split at h2
        · cases h2
          exact Or.inr (List.mem_cons_self a t)
        · exact Or.inl h2
    · exact Or.inr (List.mem_cons_of_mem a h1)

theorem pickBest_mem {K : Type} [LinearOrderedField K] (cands : List (QcCand K)) (c : QcCand K)
    (h : pickBest cands = some c) : c ∈ cands := by
  rcases pick_fold_mem cands none c h with h1 | h1
  · exact Option.noConfusion h1
  · exact h1

theorem excludeCands_spec {K : Type} [LinearOrderedField K] [JsMathOps K]
    (ctx : QcCtx K) (st : QcState K) (cf : FitSummary K)
    (c : QcCand K) (hc : c ∈ excludeCands ctx st cf) :
    fitForPoints (buildPoints ctx.levels c.nextExcluded c.nextDropped) ctx.curve
        = some c.fit ∧
    c.score = calcScore c.fit c.nextExcluded.length c.nextDropped.length
        ctx.replicatePenalty ctx.levelPenalty ∧
    c.nextDropped = st.dropped ∧
    st.excluded.length + 1 ≤ ctx.maxExcludedWells ∧
    ∃ lvl ∈ ctx.levels, lvl.level ∉ st.dropped ∧
      ∃ rep ∈ lvl.replicates.filter (fun r => r.wellId ∉ st.excluded),
        2 ≤ (lvl.replicates.filter (fun r => r.wellId ∉ st.excluded)).length ∧
        c.nextExcluded = setAdd st.excluded rep.wellId := by
  unfold excludeCands at hc
  rw [List.mem_flatMap] at hc
  obtain ⟨lvl, hlvl, hc⟩ := hc
  split at hc
  · simp at hc
  · rename_i hdrop
    split at hc
    · simp at hc
    · rename_i hcap
      dsimp only at hc
      split at hc
      · simp at hc
      · rename_i hlen
        rw [List.mem_filterMap] at hc
        obtain ⟨rep, hrep, hf⟩ := hc
        split at hf
        · exact Option.noConfusion hf
        · rename_i hmem
          split at hf
          · exact Option.noConfusion hf
          · rename_i fit2 hfit
            cases hf
            exact ⟨hfit, rfl, rfl, Nat.not_lt.mp hcap,
              lvl, hlvl, hdrop, rep, hrep, by omega, rfl⟩

theorem dropCands_spec {K : Type} [LinearOrderedField K] [JsMathOps K]
    (ctx : QcCtx K) (st : QcState K) (cf : FitSummary K)
    (c : QcCand K) (hc : c ∈ dropCands ctx st cf) :
    fitForPoints (buildPoints ctx.levels c.nextExcluded c.nextDropped) ctx.curve
        = some c.fit ∧
    c.score = calcScore c.fit c.nextExcluded.length c.nextDropped.length
        ctx.replicatePenalty ctx.levelPenalty ∧
    c.nextExcluded = st.excluded ∧
    st.dropped.length + 1 ≤ ctx.maxDroppedLevels ∧
    ∃ lvl ∈ ctx.levels, lvl.level ∉ st.dropped ∧
      c.nextDropped = setAdd st.dropped lvl.level := by
  unfold dropCands at hc
  rw [List.mem_filterMap] at hc
  obtain ⟨lvl, hlvl, hf⟩ := hc
  split at hf
  · exact Option.noConfusion hf
  · split at hf
    · exact Option.noConfusion hf
    · rename_i hdrop hcap
      dsimp only at hf
      split at hf
      · exact Option.noConfusion hf
      · rename_i fit2 hfit
        cases hf
        exact ⟨hfit, rfl, rfl, Nat.not_lt.mp hcap, lvl, hlvl, hdrop, rfl⟩

theorem qcStep_spec {K : Type} [LinearOrderedField K] [JsMathOps K]
    (ctx : QcCtx K) (st st' : QcState K) (h : qcStep ctx st = some st') :
    st.curScore + ((ctx.minScoreImprove : K) : WithBot K) < st'.curScore ∧
    fitForPoints (buildPoints ctx.levels st'.excluded st'.dropped) ctx.curve
        = some st'.curFit ∧
    st'.curScore = calcScore st'.curFit st'.excluded.length st'.dropped.length
        ctx.replicatePenalty ctx.levelPenalty ∧
    (∃ a, st'.actions = st.actions ++ [a]) ∧
    ((st'.dropped = st.dropped ∧ st.excluded.length + 1 ≤ ctx.maxExcludedWells ∧
       ∃ lvl ∈ ctx.levels, lvl.level ∉ st.dropped ∧
         ∃ rep ∈ lvl.replicates.filter (fun r => r.wellId ∉ st.excluded),
           2 ≤ (lvl.replicates.filter (fun r => r.wellId ∉ st.excluded)).length ∧
           st'.excluded = setAdd st.excluded rep.wellId) ∨
     (st'.excluded = st.excluded ∧ st.dropped.length + 1 ≤ ctx.maxDroppedLevels ∧
       ∃ lvl ∈ ctx.levels, lvl.level ∉ st.dropped ∧
         st'.dropped = setAdd st.dropped lvl.level)) := by
  unfold qcStep at h
  split at h
  · exact Option.noConfusion h
  · rename_i currentFit hcf
    split at h
    · exact Option.noConfusion h
    · rename_i best hbest
      split at h
      · rename_i hscore
        cases h
        have hmem := pickBest_mem _ _ hbest
        rw [List.mem_append] at hmem
        rcases hmem with hm | hm
        · obtain ⟨h1, h2, h3, h4, h5⟩ := excludeCands_spec _ _ _ _ hm
          exact ⟨hscore, h1, h2, ⟨_, rfl⟩, Or.inl ⟨h3, h4, h5⟩⟩
        · obtain ⟨h1, h2, h3, h4, h5⟩ := dropCands_spec _ _ _ _ hm
          exact ⟨hscore, h1, h2, ⟨_, rfl⟩, Or.inr ⟨h3, h4, h5⟩⟩
      · exact Option.noConfusion h

theorem qcLoop_inv {K : Type} [LinearOrderedField K] [JsMathOps K]
    (ctx : QcCtx K) (P : QcState K → Prop)
    (hP : ∀ s s', qcStep ctx s = some s' → P s → P s') :
    ∀ n s, P s → P (qcLoop ctx n s) := by
  intro n
  induction n with
  | zero => intro s hs; exact hs
  | succ m ih =>
    intro s hs
    unfold qcLoop
    split
    · exact hs
    · rename_i s1 hstep
      exact ih s1 (hP s s1 hstep hs)

theorem qcLoop_score_mono {K : Type} [LinearOrderedField K] [JsMathOps K]
    (ctx : QcCtx K) (hmsi : 0 ≤ ctx.minScoreImprove) :
    ∀ n s, s.curScore ≤ (qcLoop ctx n s).curScore := by
  intro n
  induction n with
  | zero => intro s; exact le_refl _
  | succ m ih =>
    intro s
    unfold qcLoop
    split
    · exact le_refl _
    · rename_i s1 hstep
      have h1 := (qcStep_spec ctx s s1 hstep).1
      have h0 : (0 : WithBot K) ≤ ((ctx.minScoreImprove : K) : WithBot K) := by
        rw [← WithBot.coe_zero]
        exact WithBot.coe_le_coe.mpr hmsi
      calc s.curScore ≤ s.curScore + ((ctx.minScoreImprove : K) : WithBot K) :=
              le_add_of_nonneg_right h0
        _ ≤ s1.curScore := le_of_lt h1
        _ ≤ (qcLoop ctx m s1).curScore := ih s1

theorem qcLoop_actions_len {K : Type} [LinearOrderedField K] [JsMathOps K]
    (ctx : QcCtx K) :
    ∀ n s, (qcLoop ctx n s).actions.length ≤ s.actions.length + n := by
  intro n
  induction n with
  | zero => intro s; simp [qcLoop]
  | succ m ih =>
    intro s
    unfold qcLoop
    split
    · exact Nat.le_add_right _ _
    · rename_i s1 hstep
      obtain ⟨a, ha⟩ := (qcStep_spec ctx s s1 hstep).2.2.2.1
      have h1 := ih s1
      rw [ha, List.length_append, List.length_singleton] at h1
      omega

theorem qcStep_preserves_ok {K : Type} [LinearOrderedField K] [JsMathOps K]
    (ctx : QcCtx K) (s s' : QcState K) (h : qcStep ctx s = some s') :
    QcStateOk ctx s → QcStateOk ctx s' := by
  intro _
  obtain ⟨_, h2, h3, _, _⟩ := qcStep_spec ctx s s' h
  exact ⟨h2, h3⟩

theorem mkInitState_ok {K : Type} [LinearOrderedField K] [JsMathOps K]
    (ctx : QcCtx K) (s0 : QcState K) (h : mkInitState ctx = some s0) :
    QcStateOk ctx s0 ∧ s0.excluded = [] ∧ s0.dropped = [] ∧ s0.actions = [] := by
  unfold mkInitState at h
  split at h
  · exact Option.noConfusion h
  · rename_i bf hbf
    cases h
    exact ⟨⟨hbf, rfl⟩, rfl, rfl, rfl⟩

theorem calcScore_le_r2 {K : Type} [LinearOrderedField K] [JsMathOps K]
    (fit : FitSummary K) (e d : ℕ) (rp lp : K)
    (hrp : 0 ≤ rp) (hlp : 0 ≤ lp) (r : K) (hr : fit.r2 = some r) :
    calcScore fit e d rp lp ≤ (r : WithBot K) := by
  unfold calcScore
  rw [hr]
  apply WithBot.coe_le_coe.mpr
  have h1 : 0 ≤ (e : K) * rp := mul_nonneg (Nat.cast_nonneg e) hrp
  have h2 : 0 ≤ (d : K) * lp := mul_nonneg (Nat.cast_nonneg d) hlp
  linarith

theorem calcScore_zero {K : Type} [LinearOrderedField K] [JsMathOps K]
    (fit : FitSummary K) (rp lp : K) (r : K) (hr : fit.r2 = some r) :
    calcScore fit 0 0 rp lp = (r : WithBot K) := by
  unfold calcScore
  rw [hr]
  norm_num

theorem count_le_flatMap {α β : Type} [DecidableEq β] (f : α → List β) (l : List α)
    (a : α) (ha : a ∈ l) (x : β) : (f a).count x ≤ (l.flatMap f).count x := by
  induction l with
  | nil => cases ha
  | cons h t ih =>
    rw [List.flatMap_cons, List.count_append]
    rcases List.mem_cons.mp ha with rfl | ha2
    · exact Nat.le_add_right _ _
    · have := ih ha2
      omega

theorem count_pair_le_flatMap {α β : Type} [DecidableEq β] (f : α → List β) (l : List α)
    (a b : α) (ha : a ∈ l) (hb : b ∈ l) (hab : a ≠ b) (x : β) :
    (f a).count x + (f b).count x ≤ (l.flatMap f).count x := by
  induction l with
  | nil => cases ha
  | cons h t ih =>
    rw [List.flatMap_cons, List.count_append]
    rcases List.mem_cons.mp ha with rfl | ha2
    · have hb2 : b ∈ t := by
        rcases List.mem_cons.mp hb with rfl | hb2
        · exact absurd rfl hab
        · exact hb2
      have := count_le_flatMap f t b hb2 x
      omega
    · rcases List.mem_cons.mp hb with rfl | hb2
      · have := count_le_flatMap f t a ha2 x
        omega
      · have := ih ha2 hb2
        omega

theorem length_filter_ne_wellId {K : Type} (A : List (Replicate K)) (w : String) :
    (A.filter (fun r => r.wellId ≠ w)).length
      + (A.map (fun r => r.wellId)).count w = A.length := by
  induction A with
  | nil => rfl
  | cons a t ih =>
    simp only [List.filter_cons, List.map_cons, List.count_cons, List.length_cons]
    by_cases h : a.wellId = w
    · rw [if_neg (by simp [h]), if_pos (by simp [h])]
      omega
    · rw [if_pos (by simp [h]), if_neg (by simp [h])]
      simp only [List.length_cons]
      omega

theorem filter_setAdd {K : Type} (A : List (Replicate K)) (e : List String) (w : String) :
    A.filter (fun r => r.wellId ∉ setAdd e w)
      = (A.filter (fun r => r.wellId ∉ e)).filter (fun r => r.wellId ≠ w) := by
  rw [List.filter_filter]
  apply List.filter_congr
  intro r _
  by_cases h1 : r.wellId ∈ e <;> by_cases h2 : r.wellId = w <;>
    simp [mem_setAdd, h1, h2]

theorem normalizeLevels_replicates_pos {K : Type} [LinearOrderedField K]
    (inputs : List (StdLevelInput K)) :
    ∀ lvl ∈ normalizeLevels inputs, 0 < lvl.replicates.length := by
  intro lvl hlvl
  unfold normalizeLevels at hlvl
  have h := List.of_mem_filter hlvl
  simpa using h

theorem qcStep_preserves_caps {K : Type} [LinearOrderedField K] [JsMathOps K]
    (ctx : QcCtx K) (s s' : QcState K) (h : qcStep ctx s = some s')
    (hs : s.excluded.length ≤ ctx.maxExcludedWells ∧
      s.dropped.length ≤ ctx.maxDroppedLevels) :
    s'.excluded.length ≤ ctx.maxExcludedWells ∧
      s'.dropped.length ≤ ctx.maxDroppedLevels := by
  rcases (qcStep_spec ctx s s' h).2.2.2.2 with
    ⟨hdr, hcap, _, _, _, _, _, _, hexc⟩ | ⟨hexcEq, hcap, _, _, _, hdrp⟩
  · constructor
    · rw [hexc]
      exact le_trans (setAdd_length_le _ _) hcap
    · rw [hdr]
      exact hs.2
  · constructor
    · rw [hexcEq]
      exact hs.1
    · rw [hdrp]
      exact le_trans (setAdd_length_le _ _) hcap

theorem qcStep_preserves_retention {K : Type} [LinearOrderedField K] [JsMathOps K]
    (ctx : QcCtx K)
    (hnd : (ctx.levels.flatMap (fun l => l.replicates.map (fun r => r.wellId))).Nodup)
    (s s' : QcState K) (h : qcStep ctx s = some s')
    (hret : ∀ lvl ∈ ctx.levels,
      0 < (lvl.replicates.filter (fun r => r.wellId ∉ s.excluded)).length) :
    ∀ lvl ∈ ctx.levels,
      0 < (lvl.replicates.filter (fun r => r.wellId ∉ s'.excluded)).length := by
  rcases (qcStep_spec ctx s s' h).2.2.2.2 with
    ⟨hdr, hcap, lvl0, hlvl0, hnd0, rep, hrep, hlen2, hexc⟩ |
    ⟨hexcEq, hcap, lvl0, hlvl0, hnd0, hdrp⟩
  · intro lvl hlvl
    rw [hexc, filter_setAdd]
    have hA := hret lvl hlvl
    have hfl := length_filter_ne_wellId
      (lvl.replicates.filter (fun r => r.wellId ∉ s.excluded)) rep.wellId
    by_cases hzero :
        ((lvl.replicates.filter (fun r => r.wellId ∉ s.excluded)).map
          (fun r => r.wellId)).count rep.wellId = 0
    · omega
    · have hndc := (List.nodup_iff_count_le_one.mp hnd) rep.wellId
      have hsubl : ((lvl.replicates.filter (fun r => r.wellId ∉ s.excluded)).map
          (fun r => r.wellId)).count rep.wellId
          ≤ (lvl.replicates.map (fun r => r.wellId)).count rep.wellId :=
        ((lvl.replicates.filter_sublist).map _).count_le _
      by_cases heq : lvl = lvl0
      · subst heq
        have h1 := count_le_flatMap (fun l => l.replicates.map (fun r => r.wellId))
          ctx.levels lvl hlvl rep.wellId
        omega
      · exfalso
        have hc0 : 0 < (lvl0.replicates.map (fun r => r.wellId)).count rep.wellId :=
          List.count_pos_iff.mpr
            (List.mem_map_of_mem _ (List.mem_of_mem_filter hrep))
        have hpair := count_pair_le_flatMap (fun l => l.replicates.map (fun r => r.wellId))
          ctx.levels lvl lvl0 hlvl hlvl0 heq rep.wellId
        omega
  · intro lvl hlvl
    rw [hexcEq]
    exact hret lvl hlvl

end AutoQcLemmas

/-! ## Claims -/

/-- C5: `fit4pl` returns `null` exactly when fewer than 4 index positions
carry a (finite) `xConc > 0` paired with a (finite) `y`; with at least 4 such
points it always returns a fit object (it is a total function and the restart
fold always produces a fit). -/
theorem c5_fit4pl_none_iff {K : Type} [LinearOrderedField K] [JsMathOps K]
    (xConc y : List K) (opts : FitOptions K) :
    fit4pl xConc y opts = none ↔
      ((xConc.zip y).filter (fun p => decide (0 < p.1))).length < 4 := by
  unfold fit4pl
  dsimp only
  rw [fit4pl_clean_length]
  split
  · exact iff_of_true rfl (by assumption)
  · rename_i hge
    refine iff_of_false ?_ hge
    intro hnone
    have hsome := fit4plRestarts_isSome ((xConc.zip y).filterMap (fun p =>
      if 0 < p.1 then some (JsMathOps.log10 p.1, p.2) else none)) opts
    rw [hnone] at hsome
    cases hsome

/-- C5 needs no witness: the claim theorem is a biconditional with no
hypotheses. -/
theorem c5_fit4pl_none_iff_example :
    fit4pl [1, 2, 3] [1, 2, 3] ({} : FitOptions ℚ) = none :=
  (c5_fit4pl_none_iff [1, 2, 3] [1, 2, 3] {}).mpr (by decide)

/-- C4: `invertPolyBySearch` returns `null` exactly on the degenerate-range
guard (`maxX ≤ minX`; the non-finiteness disjunct of the claim is vacuous in
the idealised number model where every value is finite), and in every other
case the returned value lies inside `[minX, maxX]`. -/
theorem c4_invert_poly_total_in_range {K : Type} [LinearOrderedField K]
    (coeff : List K) (y minX maxX : K) :
    (invertPolyBySearch coeff y minX maxX = none ↔ maxX ≤ minX) ∧
      ∀ x, invertPolyBySearch coeff y minX maxX = some x → minX ≤ x ∧ x ≤ maxX := by
  by_cases h : maxX ≤ minX
  · refine ⟨by simp [invertPolyBySearch, h], ?_⟩
    intro x hx
    rw [invertPolyBySearch, if_pos h] at hx
    cases hx
  · have hle : minX ≤ maxX := le_of_lt (not_le.mp h)
    refine ⟨by simp [invertPolyBySearch, h], ?_⟩
    intro x hx
    rw [invertPolyBySearch, if_neg h] at hx
    have hscan : minX ≤ (ipbScan coeff y minX maxX).1 ∧
        (ipbScan coeff y minX maxX).1 ≤ maxX := by
      rw [ipbScan]
      exact ipbScan_fold_range coeff y minX maxX hle (List.range 600)
        (fun i hi => List.mem_range.mp hi) (minX, ipbErr coeff y minX) le_rfl hle
    have href : minX ≤ (ipbRefine coeff y minX maxX).1 ∧
        (ipbRefine coeff y minX maxX).1 ≤ maxX := by
      rw [ipbRefine]
      exact ipbRefine_fold_range coeff y minX maxX hle (List.range 28)
        _ hscan.1 hscan.2
    cases hx
    exact href

/-- C4, witness: inverting the identity polynomial at `1/2` on `[0, 1]`
returns `1/2`, which the claim theorem places inside the range. -/
theorem c4_invert_poly_total_in_range_witness :
    invertPolyBySearch [0, (1 : ℚ)] (1/2) 0 1 = some (1/2) ∧
      ¬ (invertPolyBySearch [0, (1 : ℚ)] (1/2) 0 1 = none) ∧
      (0 : ℚ) ≤ 1/2 ∧ (1/2 : ℚ) ≤ 1 := by
  have hv : invertPolyBySearch [0, (1 : ℚ)] (1/2) 0 1 = some (1/2) :=
    invertPolyBySearch_of_scan_zero _ _ _ _ _ (by norm_num) scanW4
  have hr := (c4_invert_poly_total_in_range [0, (1 : ℚ)] (1/2) 0 1).2 (1/2) hv
  exact ⟨hv, by rw [hv]; simp, hr.1, hr.2⟩

/-- C2 (amended): for an affine (hence injective) coefficient vector
`[c0, c1]` with `c1 ≠ 0` and `x` strictly interior to `[minX, maxX]`, the
search applied to `evalPoly [c0, c1] x` returns a value within
`(maxX - minX) / 1200` of `x` — within `1e-2` whenever `maxX - minX ≤ 12`. -/
theorem c2_affine_roundtrip {K : Type} [LinearOrderedField K] [FloorRing K]
    (c0 c1 x minX maxX : K) (hc : c1 ≠ 0) (h1 : minX < x) (h2 : x < maxX) :
    ∃ r, invertPolyBySearch [c0, c1] (evalPoly [c0, c1] x) minX maxX = some r ∧
      |r - x| ≤ (maxX - minX) / 1200 := by
  set y := evalPoly [c0, c1] x with hy
  have hnr : ¬ (maxX ≤ minX) := not_le.mpr (h1.trans h2)
  refine ⟨(ipbRefine [c0, c1] y minX maxX).1,
    by rw [invertPolyBySearch, if_neg hnr], ?_⟩
  have heval : ∀ t : K, evalPoly [c0, c1] t = c1 * t + c0 := by
    intro t
    simp [evalPoly]
  have herr : ∀ t : K, ipbErr [c0, c1] y t = (c1 * (t - x)) * (c1 * (t - x)) := by
    intro t
    unfold ipbErr
    rw [hy, heval t, heval x]
    ring
  have hpos : (0 : K) < maxX - minX := by linarith
  -- choose the grid index nearest to x
  set t : K := (x - minX) / ((maxX - minX) / 600) with htd
  have hden : (0 : K) < (maxX - minX) / 600 := by positivity
  have hxm : (0 : K) < x - minX := by linarith
  have ht0 : 0 < t := by
    rw [htd]
    exact div_pos hxm hden
  have ht600 : t < 600 := by
    rw [htd, div_lt_iff hden]
    have : (maxX - minX) / 600 * 600 = maxX - minX := by ring
    nlinarith
  set k : ℤ := round t with hkdef
  have hk0 : 0 ≤ k := by
    rw [hkdef, round_eq]
    exact Int.le_floor.mpr (by push_cast; linarith)
  have hk600 : k ≤ 600 := by
    rw [hkdef, round_eq]
    have hlt : t + 1/2 < ((601 : ℤ) : K) := by push_cast; linarith
    exact Int.lt_add_one_iff.mp (Int.floor_lt.mpr hlt)
  -- the nearest grid point is within half a grid step of x
  have hx_eq : x = minX + t * ((maxX - minX) / 600) := by
    rw [htd]
    field_simp
  have hgrid_near : |(minX + ((k.toNat : K) / 600) * (maxX - minX)) - x|
      ≤ (maxX - minX) / 1200 := by
    have hcast : ((k.toNat : K)) = (k : K) := by
      exact_mod_cast Int.toNat_of_nonneg hk0
    rw [hcast, hx_eq]
    have hshape : minX + ((k : K) / 600) * (maxX - minX)
        - (minX + t * ((maxX - minX) / 600)) = ((k : K) - t) * ((maxX - minX) / 600) := by
      ring
    rw [hshape, abs_mul, abs_of_pos hden]
    have hround : |(k : K) - t| ≤ 1/2 := by
      rw [hkdef, abs_sub_comm]
      exact abs_sub_round t
    calc |(k : K) - t| * ((maxX - minX) / 600)
        ≤ (1/2) * ((maxX - minX) / 600) := by
          exact mul_le_mul_of_nonneg_right hround (le_of_lt hden)
      _ = (maxX - minX) / 1200 := by ring
  -- the returned point's error is bounded by the grid point's error
  have hmain := ipbRefine_err_le_grid [c0, c1] y minX maxX k.toNat
    (by omega : k.toNat ≤ 600)
  rw [herr, herr] at hmain
  -- cancel c1 and conclude (over opaque names for the two points)
  generalize hrg : (ipbRefine [c0, c1] y minX maxX).1 = r at hmain ⊢
  generalize hgg : minX + ((k.toNat : K) / 600) * (maxX - minX) = g
    at hmain hgrid_near
  have hsq : (r - x) * (r - x) ≤ (g - x) * (g - x) := by
    have hc2 : (0 : K) < c1 * c1 := mul_self_pos.mpr hc
    nlinarith
  have habs : |r - x| ≤ |g - x| := by
    nlinarith [abs_nonneg (r - x), abs_nonneg (g - x), abs_mul_abs_self (r - x),
      abs_mul_abs_self (g - x)]
  exact le_trans habs hgrid_near

/-- C2 (amended), witness: inverting `y = 1 + 2x` at `evalPoly` of the
interior point `x = 1/4` on `[0, 1]` returns exactly `1/4`. -/
theorem c2_affine_roundtrip_witness :
    (2 : ℚ) ≠ 0 ∧ (0 : ℚ) < 1/4 ∧ (1/4 : ℚ) < 1 ∧
      ∃ r, invertPolyBySearch [1, (2 : ℚ)] (evalPoly [1, 2] (1/4)) 0 1 = some r ∧
        |r - 1/4| ≤ (1 - 0) / 1200 := by
  refine ⟨by norm_num, by norm_num, by norm_num,
    c2_affine_roundtrip 1 2 (1/4) 0 1 (by norm_num) (by norm_num) (by norm_num)⟩

/-- C8: every row reported by `sampleQuant` uses the dilution factor from the
well's assignment when that factor is (finite and) strictly positive and 1
otherwise, and carries `concAdjusted = conc * dilutionFactor` — in particular
`concAdjusted` is `null` exactly when the curve inversion returned `null`. -/
theorem c8_conc_adjusted_dilution {K : Type} [LinearOrderedField K] [JsMathOps K]
    (cf : Option (CurveFitT K)) (pts : List (StdFitPoint K))
    (wells : String → WellAssign K) (parsed : List (String × WellReadingK K))
    (off : K) :
    ∀ r ∈ sampleQuant cf pts wells parsed off,
      r.dilutionFactor = (match (wells r.wellId).dilutionFactor with
        | some d => if 0 < d then d else 1
        | none => 1) ∧
      r.concAdjusted = r.conc.map (fun c => c * r.dilutionFactor) := by
  intro r hr
  unfold sampleQuant at hr
  rcases cf with _ | cf
  · simp at hr
  · dsimp only at hr
    split at hr
    · simp at hr
    · rw [List.mem_filterMap] at hr
      obtain ⟨id, hid, hf⟩ := hr
      split at hf
      · cases hf
      · split at hf
        · cases hf
        · cases hf
          refine ⟨?_, rfl⟩
          rcases (wells id).dilutionFactor with _ | d
          · rfl
          · simp [jsIsFinite]

/-- C8, witness: the concrete configuration `cfW8`/`stdPtsW8`/`wellsW8`/
`parsedW8` yields exactly one sample row (well `A1`, dilution factor 2); the
inversion range is degenerate there, so `conc` and `concAdjusted` are both
`null`, as the claim requires. -/
theorem c8_conc_adjusted_dilution_witness :
    ∃ r, r ∈ sampleQuant cfW8 stdPtsW8 wellsW8 parsedW8 0 ∧
      r.dilutionFactor = (match (wellsW8 r.wellId).dilutionFactor with
        | some d => if 0 < d then d else 1
        | none => 1) ∧
      r.concAdjusted = r.conc.map (fun c => c * r.dilutionFactor) := by
  refine ⟨⟨"A1", "m1", "g1", 2, some (1/2), none, none⟩, ?_, ?_⟩
  · decide
  · exact c8_conc_adjusted_dilution cfW8 stdPtsW8 wellsW8 parsedW8 0 _ (by decide)

/-- C3 (amended): the closed-form 4PL inversion composed with evaluation is
the identity in real arithmetic for `A ≠ D`, Hill slope `B > 0`, and `x > 0`
strictly interior to `[minX, maxX]`, **provided** the evaluation's `±60`
exponent clamp is not engaged and the evaluated response is at least `1e-12`
away from `A` (the source's small-denominator guard). -/
theorem c3_invert4pl_roundtrip (p : FourPLParams ℝ) (x minX maxX : ℝ)
    (hAD : p.A ≠ p.D) (hB : 0 < p.B) (hx : 0 < x)
    (h1 : minX < x) (h2 : x < maxX)
    (ht : |(p.C - Real.logb 10 x) * p.B| ≤ 60)
    (hden : 1 / 1000000000000 ≤ |eval4pl p x - p.A|) :
    invert4pl p (eval4pl p x) minX maxX = some x := by
  have hy := eval4pl_formula p x hx ht
  have hpw : (0 : ℝ) < (10 : ℝ) ^ ((p.C - Real.logb 10 x) * p.B) :=
    Real.rpow_pos_of_pos (by norm_num) _
  have h1pw : (0 : ℝ) < 1 + (10 : ℝ) ^ ((p.C - Real.logb 10 x) * p.B) := by linarith
  have hDA : p.D - p.A ≠ 0 := sub_ne_zero.mpr (Ne.symm hAD)
  have hy_sub : eval4pl p x - p.A =
      (p.D - p.A) / (1 + (10 : ℝ) ^ ((p.C - Real.logb 10 x) * p.B)) := by
    rw [hy]; ring
  have hy_btw : min p.A p.D < eval4pl p x ∧ eval4pl p x < max p.A p.D := by
    rcases lt_or_gt_of_ne hAD with h | h
    · have hq : 0 < (p.D - p.A) / (1 + (10 : ℝ) ^ ((p.C - Real.logb 10 x) * p.B)) := by
        apply div_pos (by linarith) h1pw
      have hq2 : (p.D - p.A) / (1 + (10 : ℝ) ^ ((p.C - Real.logb 10 x) * p.B))
          < p.D - p.A := by
        rw [div_lt_iff h1pw]
        nlinarith
      constructor
      · rw [min_eq_left (le_of_lt h)]; linarith [hy_sub]
      · rw [max_eq_right (le_of_lt h)]
        have := hy_sub
        linarith
    · have hq : (p.D - p.A) / (1 + (10 : ℝ) ^ ((p.C - Real.logb 10 x) * p.B)) < 0 :=
        div_neg_of_neg_of_pos (by linarith) h1pw
      have hq2 : p.D - p.A <
          (p.D - p.A) / (1 + (10 : ℝ) ^ ((p.C - Real.logb 10 x) * p.B)) := by
        rw [lt_div_iff h1pw]
        nlinarith
      constructor
      · rw [min_eq_right (le_of_lt h)]
        have := hy_sub
        linarith
      · rw [max_eq_left (le_of_lt h)]
        have := hy_sub
        linarith
  have hfrac : (p.D - p.A) / (eval4pl p x - p.A) - 1 =
      (10 : ℝ) ^ ((p.C - Real.logb 10 x) * p.B) := by
    rw [hy_sub, div_div_eq_mul_div, mul_comm, mul_div_assoc, div_self hDA, mul_one]
    ring
  unfold invert4pl
  rw [realLog10_eq, realPowTen_eq]
  dsimp only
  rw [if_neg (not_le.mpr hB)]
  rw [if_neg (not_le.mpr (lt_trans h1 h2))]
  rw [if_neg (show ¬ (eval4pl p x ≤ min p.A p.D ∨ max p.A p.D ≤ eval4pl p x) from by
    push_neg
    exact hy_btw)]
  rw [if_neg (not_lt.mpr hden)]
  rw [hfrac]
  rw [if_neg (not_not_intro hpw)]
  rw [Real.logb_rpow (by norm_num : (0:ℝ) < 10) (by norm_num : (10:ℝ) ≠ 1)]
  have hxlog : p.C - ((p.C - Real.logb 10 x) * p.B) / p.B = Real.logb 10 x := by
    field_simp
  rw [hxlog, Real.rpow_logb (by norm_num : (0:ℝ) < 10) (by norm_num : (10:ℝ) ≠ 1) hx]
  rw [if_neg (show ¬ (x < minX ∨ maxX < x) from by
    push_neg
    exact ⟨le_of_lt h1, le_of_lt h2⟩)]

/-- C3 (amended), witness: for `A = 0, D = 2, C = 0, B = 1` and the interior
point `x = 1` on `[1/2, 2]`, evaluation gives `1` and the inversion returns
exactly `1`. -/
theorem c3_invert4pl_roundtrip_witness :
    ((⟨0, 2, 0, 1⟩ : FourPLParams ℝ).A ≠ (⟨0, 2, 0, 1⟩ : FourPLParams ℝ).D) ∧
      invert4pl (⟨0, 2, 0, 1⟩ : FourPLParams ℝ)
        (eval4pl (⟨0, 2, 0, 1⟩ : FourPLParams ℝ) 1) (1/2) 2 = some 1 := by
  have heval : eval4pl (⟨0, 2, 0, 1⟩ : FourPLParams ℝ) 1 = 1 := by
    rw [eval4pl_formula ⟨0, 2, 0, 1⟩ 1 (by norm_num) (by simp)]
    simp
    norm_num
  refine ⟨by norm_num, ?_⟩
  refine c3_invert4pl_roundtrip ⟨0, 2, 0, 1⟩ 1 (1/2) 2 (by norm_num) (by norm_num)
    (by norm_num) (by norm_num) (by norm_num) (by simp) ?_
  rw [heval]
  norm_num

/-- C3, counterexample: with `A = 0` and `D = 1e-13` (so `A ≠ D`, `B = 1 >
0`, and `x = 1` interior to `[1/2, 2]`), the evaluated response sits closer
than `1e-12` to the `A` asymptote, the inversion's small-denominator guard
fires, and `invert4pl` returns `null` instead of a value near `x`. -/
theorem c3_roundtrip_counterexample :
    ((0 : ℝ) ≠ 1/10000000000000) ∧ (0 : ℝ) < 1 ∧ ((1:ℝ)/2) < 1 ∧ (1:ℝ) < 2 ∧
      invert4pl (⟨0, 1/10000000000000, 0, 1⟩ : FourPLParams ℝ)
        (eval4pl (⟨0, 1/10000000000000, 0, 1⟩ : FourPLParams ℝ) 1) (1/2) 2 = none := by
  have heval : eval4pl (⟨0, 1/10000000000000, 0, 1⟩ : FourPLParams ℝ) 1
      = 1/20000000000000 := by
    rw [eval4pl_formula ⟨0, 1/10000000000000, 0, 1⟩ 1 (by norm_num) (by simp)]
    simp
    norm_num
  refine ⟨by norm_num, by norm_num, by norm_num, by norm_num, ?_⟩
  rw [heval]
  unfold invert4pl
  rw [realLog10_eq, realPowTen_eq]
  dsimp only
  rw [if_neg (by norm_num : ¬ ((⟨0, 1/10000000000000, 0, 1⟩ : FourPLParams ℝ).B ≤ 0))]
  rw [if_neg (by norm_num : ¬ ((2:ℝ) ≤ 1/2))]
  rw [if_neg (show ¬ ((1/20000000000000 : ℝ) ≤
      min (⟨0, 1/10000000000000, 0, 1⟩ : FourPLParams ℝ).A
        (⟨0, 1/10000000000000, 0, 1⟩ : FourPLParams ℝ).D ∨
      max (⟨0, 1/10000000000000, 0, 1⟩ : FourPLParams ℝ).A
        (⟨0, 1/10000000000000, 0, 1⟩ : FourPLParams ℝ).D ≤ (1/20000000000000 : ℝ))
      from by
    push_neg
    constructor
    · simp only [min_def]
      norm_num
    · simp only [max_def]
      norm_num)]
  rw [if_pos (show |(1/20000000000000 : ℝ) -
      (⟨0, 1/10000000000000, 0, 1⟩ : FourPLParams ℝ).A| < 1/1000000000000 from by
    simp only []
    rw [sub_zero, abs_of_pos (by norm_num)]
    norm_num)]

/-- C2, counterexample: for the (non-injective) polynomial `y = x²` on
`[-1, 1]`, the search applied to `evalPoly` at the interior point `x = 1/2`
returns `-1/2`, a full unit away from `x` — far beyond the claimed `~1e-2`
round-trip accuracy. -/
theorem c2_roundtrip_counterexample :
    (-1 : ℚ) < 1/2 ∧ (1/2 : ℚ) < 1 ∧
      invertPolyBySearch [0, 0, (1 : ℚ)] (evalPoly [0, 0, 1] (1/2)) (-1) 1 = some (-1/2) ∧
      ¬ (|(-1/2 : ℚ) - 1/2| ≤ 1/10) := by
  have he : evalPoly [0, 0, (1 : ℚ)] (1/2) = 1/4 := by
    norm_num [evalPoly]
  refine ⟨by norm_num, by norm_num, ?_, by norm_num⟩
  rw [he]
  exact invertPolyBySearch_of_scan_zero _ _ _ _ _ (by norm_num) scanCx

/-- C7: for every input text accepted by neither the plate-block parser nor
the list parser, `parseElisaReaderText` returns (without throwing) an empty
wells map together with the fixed "Could not parse the reader output…"
warning. -/
theorem c7_unparseable_warning (t : String)
    (h1 : tryParsePlateBlocks t = none) (h2 : tryParseList t = none) :
    (parseElisaReaderText t).wells = [] ∧
      couldNotParseMsg ∈ (parseElisaReaderText t).warnings := by
  simp [parseElisaReaderText, h1, h2]

/-- C7, witness: on the non-tabular text `"hello world"` both parsers reject
and the dispatcher produces the empty map plus the fixed warning. -/
theorem c7_unparseable_warning_witness :
    (parseElisaReaderText "hello world").wells = [] ∧
      couldNotParseMsg ∈ (parseElisaReaderText "hello world").warnings :=
  c7_unparseable_warning "hello world" (by decide) (by decide)

/-- C10: whenever the plate-block parser succeeds, the returned wells map has
an entry for every one of the 96 identifiers `A1..H12` (unparsed readings are
present with `null` fields rather than absent), and `net = a450 - a570`
exactly when both readings are non-null. -/
theorem c10_plate_blocks_complete (t : String) (res : ElisaParseResult)
    (h : tryParsePlateBlocks t = some res) :
    ∀ w ∈ plate96WellIds, ∃ rd, res.wells.lookup w = some rd ∧
      rd.net = (match rd.a450, rd.a570 with
                | some x, some y => some (x - y)
                | _, _ => none) := by
  obtain ⟨m450, m570, temp, rfl⟩ := tryParsePlateBlocks_shape t res h
  intro w hw
  have hk : w ∈ (buildWells m450 m570).map Prod.fst := by
    rw [buildWells_keys]; exact hw
  obtain ⟨rd, hrd⟩ := lookup_isSome_of_mem_keys _ w hk
  exact ⟨rd, hrd, buildWells_net _ _ _ (mem_of_lookup_eq_some hrd)⟩

/-- C10, witness: the parser succeeds on the concrete plate text `plateT0`
and the resulting map satisfies the completeness and net properties. -/
theorem c10_plate_blocks_complete_witness :
    ∃ res, tryParsePlateBlocks plateT0 = some res ∧
      ∀ w ∈ plate96WellIds, ∃ rd, res.wells.lookup w = some rd ∧
        rd.net = (match rd.a450, rd.a570 with
                  | some x, some y => some (x - y)
                  | _, _ => none) := by
  have hs : (tryParsePlateBlocks plateT0).isSome = true := by decide
  exact ⟨(tryParsePlateBlocks plateT0).get hs, (Option.some_get hs).symm,
    c10_plate_blocks_complete _ _ (Option.some_get hs).symm⟩

/-- C1: every step the greedy Auto-QC loop accepts raises the running score
(`r2` minus the exclusion penalties) by strictly more than `minScoreImprove`;
whenever the two penalties and the improvement threshold are nonnegative (the
defaults are), the returned `suggested.r2` is at least `baseline.r2`; and when
the baseline fit is missing, or no candidate clears the threshold at the very
first step, `actions` is empty.  The nonnegativity hypotheses are necessary:
see the counterexample with a negative `replicatePenalty`. -/
theorem c1_auto_qc_score_monotone {K : Type} [LinearOrderedField K] [JsMathOps K]
    (inputs : List (StdLevelInput K)) (curve : CurveKind) (opts : AutoQcOptions K) :
    (∀ st st', qcStep (mkQcCtx inputs curve opts) st = some st' →
        st.curScore + (((mkQcCtx inputs curve opts).minScoreImprove : K) : WithBot K)
          < st'.curScore) ∧
    (0 ≤ (mkQcCtx inputs curve opts).replicatePenalty →
      0 ≤ (mkQcCtx inputs curve opts).levelPenalty →
      0 ≤ (mkQcCtx inputs curve opts).minScoreImprove →
      ∀ rb rs : K,
        (suggestStandardCurveExclusions inputs curve opts).baseline.bind
            (fun f => f.r2) = some rb →
        (suggestStandardCurveExclusions inputs curve opts).suggested.bind
            (fun f => f.r2) = some rs →
        rb ≤ rs) ∧
    (∀ s0, mkInitState (mkQcCtx inputs curve opts) = some s0 →
        qcStep (mkQcCtx inputs curve opts) s0 = none →
        (suggestStandardCurveExclusions inputs curve opts).actions = []) ∧
    (mkInitState (mkQcCtx inputs curve opts) = none →
        (suggestStandardCurveExclusions inputs curve opts).actions = []) := by
  refine ⟨fun st st' h => (qcStep_spec _ _ _ h).1, ?_, ?_, ?_⟩
  · intro hrp hlp hmsi rb rs hrb hrs
    cases hinit : mkInitState (mkQcCtx inputs curve opts) with
    | none =>
      unfold suggestStandardCurveExclusions at hrb
      dsimp only at hrb
      rw [hinit] at hrb
      simp at hrb
    | some s0 =>
      unfold suggestStandardCurveExclusions at hrb hrs
      dsimp only at hrb hrs
      rw [hinit] at hrb hrs
      dsimp only at hrb hrs
      obtain ⟨hok0, hex0, hdr0, hac0⟩ := mkInitState_ok _ _ hinit
      have hmono := qcLoop_score_mono (mkQcCtx inputs curve opts) hmsi
        (opts.maxActions.getD 3) s0
      have hokf : QcStateOk (mkQcCtx inputs curve opts)
          (qcLoop (mkQcCtx inputs curve opts) (opts.maxActions.getD 3) s0) :=
        qcLoop_inv _ _ (qcStep_preserves_ok _) _ s0 hok0
      have hrb2 : s0.curFit.r2 = some rb := hrb
      rw [hokf.1] at hrs
      have hrs2 : (qcLoop (mkQcCtx inputs curve opts)
          (opts.maxActions.getD 3) s0).curFit.r2 = some rs := hrs
      have hs0 : s0.curScore = (rb : WithBot K) := by
        rw [hok0.2, hex0, hdr0]
        simpa using calcScore_zero s0.curFit _ _ rb hrb2
      have hsf : (qcLoop (mkQcCtx inputs curve opts)
          (opts.maxActions.getD 3) s0).curScore ≤ (rs : WithBot K) := by
        rw [hokf.2]
        exact calcScore_le_r2 _ _ _ _ _ hrp hlp rs hrs2
      rw [hs0] at hmono
      exact WithBot.coe_le_coe.mp (le_trans hmono hsf)
  · intro s0 hinit hstep
    unfold suggestStandardCurveExclusions
    dsimp only
    rw [hinit]
    dsimp only
    have hfix : ∀ n, qcLoop (mkQcCtx inputs curve opts) n s0 = s0 := by
      intro n
      cases n with
      | zero => rfl
      | succ m =>
        unfold qcLoop
        rw [hstep]
    rw [hfix]
    exact (mkInitState_ok _ _ hinit).2.2.2
  · intro hinit
    unfold suggestStandardCurveExclusions
    dsimp only
    rw [hinit]

/-- C1 witness: on clean parabola data with default options the r2 comparison
instantiates (to `1 ≤ 1`) and the first step already fails the threshold, so
no action is suggested. -/
theorem c1_auto_qc_score_monotone_witness :
    ((1 : ℚ) ≤ 1) ∧
    (suggestStandardCurveExclusions inputsW1 (.poly 2) ({} : AutoQcOptions ℚ)).actions
      = [] :=
  ⟨(c1_auto_qc_score_monotone inputsW1 (.poly 2) {}).2.1 (by decide) (by decide)
      (by decide) 1 1 (by decide) (by decide),
   (c1_auto_qc_score_monotone inputsW1 (.poly 2) {}).2.2.1 s0W1 (by decide) (by decide)⟩

/-- C1 counterexample: with `replicatePenalty = -10` (a value the options API
accepts) the loop excludes the well `w4a` even though that lowers `r2` from
`1` to `2934/2935`, so the unconditional `suggested.r2 ≥ baseline.r2` part of
the claim fails. -/
theorem c1_r2_counterexample :
    (suggestStandardCurveExclusions inputsC1 (.poly 2) optsC1).actions ≠ [] ∧
    (suggestStandardCurveExclusions inputsC1 (.poly 2) optsC1).baseline.bind
        (fun f => f.r2) = some 1 ∧
    (suggestStandardCurveExclusions inputsC1 (.poly 2) optsC1).suggested.bind
        (fun f => f.r2) = some (2934 / 2935) ∧
    ((2934 : ℚ) / 2935) < 1 :=
  ⟨by decide, by decide, by decide, by decide⟩

/-- C6: every returned suggestion respects the configured caps — at most
`maxActions` (default 3) actions, `maxExcludedWells` (default 3) excluded
wells and `maxDroppedLevels` (default 1) dropped levels — and, provided the
well ids across all normalised replicates are pairwise distinct, every level
(dropped or not) retains at least one non-excluded replicate, because a
replicate exclusion is only proposed for a level that still has more than one
included replicate.  The distinctness proviso is necessary: see the
counterexample where one exclusion removes both replicates of a level
sharing a well id. -/
theorem c6_auto_qc_caps {K : Type} [LinearOrderedField K] [JsMathOps K]
    (inputs : List (StdLevelInput K)) (curve : CurveKind) (opts : AutoQcOptions K) :
    (suggestStandardCurveExclusions inputs curve opts).actions.length
        ≤ opts.maxActions.getD 3 ∧
    (suggestStandardCurveExclusions inputs curve opts).excludedWellIds.length
        ≤ opts.maxExcludedWells.getD 3 ∧
    (suggestStandardCurveExclusions inputs curve opts).droppedLevels.length
        ≤ opts.maxDroppedLevels.getD 1 ∧
    (((normalizeLevels inputs).flatMap
        (fun l => l.replicates.map (fun r => r.wellId))).Nodup →
      ∀ lvl ∈ normalizeLevels inputs,
        0 < (lvl.replicates.filter (fun r =>
          r.wellId ∉
            (suggestStandardCurveExclusions inputs curve opts).excludedWellIds)).length) := by
  cases hinit : mkInitState (mkQcCtx inputs curve opts) with
  | none =>
    unfold suggestStandardCurveExclusions
    dsimp only
    rw [hinit]
    refine ⟨by simp, by simp, by simp, ?_⟩
    intro _ lvl hlvl
    simpa using normalizeLevels_replicates_pos inputs lvl hlvl
  | some s0 =>
    obtain ⟨hok0, hex0, hdr0, hac0⟩ := mkInitState_ok _ _ hinit
    unfold suggestStandardCurveExclusions
    dsimp only
    rw [hinit]
    dsimp only
    have hacts := qcLoop_actions_len (mkQcCtx inputs curve opts)
      (opts.maxActions.getD 3) s0
    rw [hac0] at hacts
    have hcaps := qcLoop_inv (mkQcCtx inputs curve opts)
      (fun s => s.excluded.length ≤ (mkQcCtx inputs curve opts).maxExcludedWells ∧
        s.dropped.length ≤ (mkQcCtx inputs curve opts).maxDroppedLevels)
      (fun s s' h hs => qcStep_preserves_caps _ s s' h hs)
      (opts.maxActions.getD 3) s0
      ⟨by rw [hex0]; exact Nat.zero_le _, by rw [hdr0]; exact Nat.zero_le _⟩
    refine ⟨by simpa using hacts, hcaps.1, hcaps.2, ?_⟩
    intro hnd lvl hlvl
    have hret := qcLoop_inv (mkQcCtx inputs curve opts)
      (fun s => ∀ lvl ∈ (mkQcCtx inputs curve opts).levels,
        0 < (lvl.replicates.filter (fun r => r.wellId ∉ s.excluded)).length)
      (fun s s' h hs => qcStep_preserves_retention _ hnd s s' h hs)
      (opts.maxActions.getD 3) s0
      (by
        intro lvl2 hlvl2
        rw [hex0]
        simpa using normalizeLevels_replicates_pos inputs lvl2 hlvl2)
    exact hret lvl hlvl

/-- C6 witness: on the distinct-well data `inputsW6` with default options the
caps hold and the top level keeps a positive number of included replicates. -/
theorem c6_auto_qc_caps_witness :
    (suggestStandardCurveExclusions inputsW6 (.poly 2) ({} : AutoQcOptions ℚ)).actions.length
        ≤ 3 ∧
    0 < ((⟨"L4", 4, [⟨"d", 15⟩, ⟨"e", 17⟩]⟩ : StdLevelInput ℚ).replicates.filter
      (fun r => r.wellId ∉
        (suggestStandardCurveExclusions inputsW6 (.poly 2)
          ({} : AutoQcOptions ℚ)).excludedWellIds)).length :=
  ⟨(c6_auto_qc_caps inputsW6 (.poly 2) {}).1,
   (c6_auto_qc_caps inputsW6 (.poly 2) {}).2.2.2 (by decide) _ (by decide)⟩

/-- C6 counterexample: when two replicates of one level share the well id
`"X"`, a single accepted exclusion (the caps all hold) removes both, so the
non-dropped level `L4` retains no replicate — the retention half of the claim
needs the distinct-well-id proviso. -/
theorem c6_retention_counterexample :
    (suggestStandardCurveExclusions inputsC6 (.poly 2)
        ({} : AutoQcOptions ℚ)).excludedWellIds = ["X"] ∧
    (suggestStandardCurveExclusions inputsC6 (.poly 2)
        ({} : AutoQcOptions ℚ)).droppedLevels = [] ∧
    ∃ lvl ∈ normalizeLevels inputsC6,
      lvl.level ∉ (suggestStandardCurveExclusions inputsC6 (.poly 2)
          ({} : AutoQcOptions ℚ)).droppedLevels ∧
      (lvl.replicates.filter (fun r =>
        r.wellId ∉ (suggestStandardCurveExclusions inputsC6 (.poly 2)
          ({} : AutoQcOptions ℚ)).excludedWellIds)).length = 0 :=
  ⟨by decide, by decide, ⟨"L4", 4, [⟨"X", -50⟩, ⟨"X", 50⟩]⟩, by decide, by decide, by decide⟩

end Elisa
